import Mathlib

/-!
Verification of the STIXCore product data model and merge/split engine.

Shallow embedding of `src/stixcore/products/product.py`:

* `GenericProduct.add` embeds `GenericProduct.__add__` (the merge engine,
  called `combine` in the specification),
* `GenericProduct.split_to_files` embeds the split engine,
* `ProductFactory.check_registered_widget` embeds
  `ProductFactory._check_registered_widget` (registry dispatch),
* `L1Mixin.from_level0` / `L2Mixin.from_level1` embed the level transitions.

Tables are embedded as lists of rows.  Sample times (spacecraft elapsed
times) are embedded as rationals; the instrument value columns of a Data
row are abstracted into a single `value` payload field.  Collaborators
that live outside `src/` (the `stixcore.time` package: `SCETimeRange`,
`SCETime.get_scedays`, `TimeRange.get_dates`) are modelled from the spec
where noted.
-/

namespace STIXCore

/-! ## Rounding to two decimal places

`np.around(x, 2)` rounds to the nearest multiple of 1/100, ties to even.
We embed the resulting key as an integer (the multiple of 1/100), which
induces the same equalities and the same ordering as the rounded float.
-/

/-- Round a rational to the nearest integer, ties to the even integer
(the rounding mode used by `np.around`). -/
def roundHalfEven (x : ℚ) : ℤ :=
  let f : ℤ := ⌊x⌋
  let r : ℚ := x - f
  if r < 1/2 then f
  else if 1/2 < r then f + 1
  else if f % 2 = 0 then f else f + 1

/-- The key used by `__add__` for the `time_float` column:
`np.around(data['time'].as_float().value, 2)` scaled by 100. -/
def round2key (t : ℚ) : ℤ := roundHalfEven (100 * t)

/-! ## Integer ranges (`np.arange`-style contiguous sequences) -/

/-- The list of integers `a, a+1, ..., b` (empty when `b < a`). -/
def intRange (a b : ℤ) : List ℤ :=
  (List.range (b + 1 - a).toNat).map (fun (i : ℕ) => a + (i : ℤ))

/-! ## Stable sorting by an integer key (models `Table.sort(keys)`) -/

/-- Insert `x` before the first element whose key is not smaller
(stable insertion). -/
def insertByKey {α : Type} (key : α → ℤ) (x : α) : List α → List α
  | [] => [x]
  | y :: ys => if key y < key x then y :: insertByKey key x ys else x :: y :: ys

/-- Stable insertion sort by an integer key. -/
def sortByKey {α : Type} (key : α → ℤ) : List α → List α
  | [] => []
  | x :: xs => insertByKey key x (sortByKey key xs)

/-! ## Deduplication keeping the first row of each key group

`astropy.table.unique(table, keys)` groups the rows by key (a stable
sort) and keeps the first row of each group, i.e. the first occurrence
in the original order; `__add__` then sorts the result by the same key.
We embed this as first-occurrence deduplication (`dedupKeys`) followed
by the stable sort (`sortByKey`).
-/

/-- Keep a row only if its key was not seen before (`seen` records the
keys of already kept rows). -/
def dedupKeysAux {α : Type} (key : α → ℤ) (seen : List ℤ) : List α → List α
  | [] => []
  | x :: xs =>
    if key x ∈ seen then dedupKeysAux key seen xs
    else x :: dedupKeysAux key (key x :: seen) xs

/-- First-occurrence deduplication by key. -/
def dedupKeys {α : Type} (key : α → ℤ) (l : List α) : List α :=
  dedupKeysAux key [] l

/-- `np.unique` over integers: the sorted list of distinct values. -/
def npUniqueInt (l : List ℤ) : List ℤ :=
  dedupKeys id (sortByKey id l)

/-- `.min()` of a numpy integer array (0 on the empty array, which numpy
rejects; the guard `len(i[0]) > 0` keeps that case unreachable). -/
def listMin (l : List ℤ) : ℤ :=
  match l with
  | [] => 0
  | x :: xs => xs.foldl min x

/-! ## Data model

`Control` rows keep the join key `index` and the provenance column
`parent` (the other provenance/time columns play no role in the claims
and are omitted).  `Data` rows keep `time`, `timedel`, the foreign key
`control_index`, and one abstract instrument `value` column standing for
all instrument-parameter columns.
-/

/-- Processing level (`LB`/`L0`/`L1`/`L2`). -/
inductive Level
  | LB
  | L0
  | L1
  | L2
deriving DecidableEq, Repr

/-- The concrete Python classes of products instantiable in
`product.py`: `GenericProduct` and its subclass `DefaultProduct`. -/
inductive PClass
  | genericProduct
  | defaultProduct
deriving DecidableEq, Repr

/-- `isinstance(x, parent)` for the two product classes:
`DefaultProduct` is a subclass of `GenericProduct`. -/
def isinstanceOf (c parent : PClass) : Bool :=
  match c, parent with
  | _, .genericProduct => true
  | .defaultProduct, .defaultProduct => true
  | .genericProduct, .defaultProduct => false

/-- One row of a `CONTROL` table. -/
structure ControlRow where
  index : ℤ
  parent : String
deriving DecidableEq, Repr

/-- One row of a `DATA` table. -/
structure DataRow where
  time : ℚ
  timedel : ℚ
  control_index : ℤ
  value : ℤ
deriving DecidableEq, Repr

/-- Modelled from the spec: `stixcore.time.SCETimeRange` (not under
`src/`) is a `(start, end)` pair over the time domain; the
`defaultdict(SCETimeRange)` default is the empty range, embedded as
`none`. -/
abbrev SCETimeRange := Option (ℚ × ℚ)

/-- Modelled from the spec: `SCETimeRange.expand(other)` enlarges
`start`/`end` to cover `other`; expanding the empty range yields the
other range. -/
def trExpand : SCETimeRange → SCETimeRange → SCETimeRange
  | none, r => r
  | some p, none => some p
  | some p, some q => some (min p.1 q.1, max p.2 q.2)

/-- `a` covers (is a superset of) `b` as a time interval; the empty
range is covered by everything. -/
def trCoversB : SCETimeRange → SCETimeRange → Bool
  | _, none => true
  | none, some _ => false
  | some p, some q => decide (p.1 ≤ q.1 ∧ q.2 ≤ p.2)

/-- The `idb_versions` mapping: calibration-database version key to
observed time range (association list, as iterated by `.items()`). -/
abbrev IdbMap := List (ℕ × SCETimeRange)

/-- Dictionary lookup with the `defaultdict(SCETimeRange)` default: a
missing key reads as the empty range. -/
def idbGet (m : IdbMap) (k : ℕ) : SCETimeRange :=
  match m.find? (fun p => p.1 == k) with
  | some p => p.2
  | none => none

/-- Dictionary update `m[k] = r` (replace the entry if the key exists,
append it otherwise). -/
def idbSet (m : IdbMap) (k : ℕ) (r : SCETimeRange) : IdbMap :=
  if (m.find? (fun p => p.1 == k)).isSome then
    m.map (fun p => if p.1 == k then (k, r) else p)
  else
    m ++ [(k, r)]

/-- A product: identifying attributes, the Control/Data table pair and
the `idb_versions` mapping (`GenericProduct.__init__`). -/
structure Product where
  cls : PClass
  service_type : ℕ
  service_subtype : ℕ
  ssid : Option ℤ
  level : Level
  control : List ControlRow
  data : List DataRow
  idb_versions : IdbMap
deriving DecidableEq, Repr

/-- `Except.ok` test for stating that a call did not raise. -/
def exceptIsOk {ε α : Type} : Except ε α → Bool
  | .ok _ => true
  | .error _ => false

namespace GenericProduct

/-- `GenericProduct.scet_timerange`: reads `data['time'][0]`,
`data['timedel'][0]`, `data['time'][-1]` and `data['timedel'][-1]`;
on an empty Data table the indexing raises `IndexError`, embedded as
`none`. -/
def scet_timerange (p : Product) : Option (ℚ × ℚ) :=
  match p.data.head?, p.data.getLast? with
  | some f, some l => some (f.time - f.timedel / 2, l.time + l.timedel / 2)
  | _, _ => none

end GenericProduct


/-! ## Registry dispatch (`ProductFactory._check_registered_widget`) -/

/-- The attributes passed to every registered `is_datasource_for`
predicate. -/
structure Attrs where
  level : Level
  service_type : ℕ
  service_subtype : ℕ
  ssid : Option ℤ
  control : List ControlRow
  data : List DataRow
  energies : Option (List ℚ)

/-- Dispatch failures of the factory. -/
inductive DispatchError
  | noMatch
  | multipleMatch (n : ℕ)
deriving DecidableEq, Repr

namespace ProductFactory

/-- `ProductFactory._check_registered_widget`: evaluate every registered
predicate; on zero matches fall back to the default widget type (or
raise `NoMatchError`), on more than one match raise
`MultipleMatchError`, otherwise return the unique match. -/
def check_registered_widget {α : Type} (registry : List (α × (Attrs → Bool)))
    (dflt : Option α) (a : Attrs) : Except DispatchError α :=
  match (registry.filter (fun p => p.2 a)).map Prod.fst, dflt with
  | [], none => Except.error DispatchError.noMatch
  | [], some d => Except.ok d
  | [c], _ => Except.ok c
  | cs, _ => Except.error (DispatchError.multipleMatch cs.length)

end ProductFactory


/-! ## Merge engine (`GenericProduct.__add__`, the spec's `combine`) -/

/-- The transient `old_index` origin tags `"s{i}"` / `"o{i}"`. -/
inductive Tag
  | s (i : ℤ)
  | o (i : ℤ)
deriving DecidableEq, Repr

/-- Errors `__add__` can raise: the `TypeError` of the explicit type
check (carrying both types), or the `IndexError` from
`scet_timerange` on an empty Data table. -/
inductive CombineError
  | typeError (selfCls otherCls : PClass)
  | indexError
deriving DecidableEq, Repr

namespace GenericProduct

/-- Value of the `newids` Python dict at a tag (`newids[oid]`; the
`none` fallback 0 is unreachable whenever the tag is a key). -/
def idOf (m : List (Tag × ℕ)) (t : Tag) : ℕ :=
  match m.find? (fun p => p.1 == t) with
  | some p => p.2
  | none => 0

/-- The `for row in data:` loop of `__add__`: walk the deduplicated,
sorted Data rows, insert each unseen tag into `newids` with the next
dense id, and overwrite the row's `control_index` with the tag's id.
Returns the rewritten rows and the final `newids` dict. -/
def renumberData : List (DataRow × Tag) → List (Tag × ℕ) → List DataRow × List (Tag × ℕ)
  | [], m => ([], m)
  | (r, t) :: rest, m =>
    let m1 := if (m.find? (fun p => p.1 == t)).isSome then m else m ++ [(t, m.length)]
    let res := renumberData rest m1
    ({ r with control_index := (idOf m1 t : ℤ) } :: res.1, res.2)

/-- The `newids` dict built by walking a tag list (the same insertion
discipline as `renumberData`, used to state its final dict). -/
def buildNewIds : List Tag → List (Tag × ℕ) → List (Tag × ℕ)
  | [], m => m
  | t :: rest, m =>
    buildNewIds rest (if (m.find? (fun p => p.1 == t)).isSome then m else m ++ [(t, m.length)])

/-- The `idb_versions` merge of `__add__`: deep-copy `self`'s ranges
(pure data, so the copy is the map itself), then for every key of
`other`'s map expand the (default-created) range by `other`'s range. -/
def combineIdb (selfM otherM : IdbMap) : IdbMap :=
  otherM.foldl (fun acc kr => idbSet acc kr.1 (trExpand (idbGet acc kr.1) kr.2)) selfM

/-- The key of the transient `time_float` column:
`np.around(data['time'].as_float().value, 2)`. -/
def timeKey (rt : DataRow × Tag) : ℤ := round2key rt.1.time

/-- The stacked, origin-tagged Data rows of `__add__`: `"s{i}"`/`"o{i}"`
tags from `control_index`, the table with the earlier
`scet_timerange.start` first (`s0`/`o0` are the first Data rows of
`self`/`other`). -/
def taggedData (self other : Product) (s0 o0 : DataRow) : List (DataRow × Tag) :=
  if s0.time - s0.timedel / 2 ≤ o0.time - o0.timedel / 2 then
    self.data.map (fun r => (r, Tag.s r.control_index)) ++
      other.data.map (fun r => (r, Tag.o r.control_index))
  else
    other.data.map (fun r => (r, Tag.o r.control_index)) ++
      self.data.map (fun r => (r, Tag.s r.control_index))

/-- The stacked, origin-tagged Control rows of `__add__` (`self` first,
tags from `index`). -/
def taggedControl (self other : Product) : List (ControlRow × Tag) :=
  self.control.map (fun c => (c, Tag.s c.index)) ++
    other.control.map (fun c => (c, Tag.o c.index))

/-- The Data rows of `__add__` after `unique(..., keys=['time_float'])`
and `sort(['time_float'])`, still carrying their origin tags. -/
def mergedData (self other : Product) (s0 o0 : DataRow) : List (DataRow × Tag) :=
  sortByKey timeKey (dedupKeys timeKey (taggedData self other s0 o0))

/-- The successful branch of `__add__` (after the type check and the
in-bounds `scet_timerange` accesses): stack Control (self first) and
Data (earlier `scet_timerange.start` first), deduplicate and sort Data
on the rounded time key, rebuild `control_index`/`index` from the
`newids` dict, drop unreferenced Control rows, sort Control by `index`,
and merge `idb_versions`. -/
def combineOk (self other : Product) (s0 o0 : DataRow) : Product :=
  let rn := renumberData (mergedData self other s0 o0) []
  let control1 := (taggedControl self other).filterMap (fun ct =>
    if (rn.2.find? (fun p => p.1 == ct.2)).isSome then
      some { ct.1 with index := (idOf rn.2 ct.2 : ℤ) }
    else none)
  let control2 := sortByKey (fun c => c.index) control1
  { cls := self.cls
    service_type := self.service_type
    service_subtype := self.service_subtype
    ssid := self.ssid
    level := self.level
    control := control2
    data := rn.1
    idb_versions := combineIdb self.idb_versions other.idb_versions }

/-- `GenericProduct.__add__` (the spec's `combine`): the
`isinstance(other, type(self))` check raises `TypeError` naming both
types; then `self.scet_timerange.start` / `other.scet_timerange.start`
are read (raising `IndexError` on an empty Data table, `self` first);
otherwise the merge proper runs. -/
def add (self other : Product) : Except CombineError Product :=
  if isinstanceOf other.cls self.cls = false then
    Except.error (CombineError.typeError self.cls other.cls)
  else
    match self.data, other.data with
    | [], _ => Except.error CombineError.indexError
    | _ :: _, [] => Except.error CombineError.indexError
    | s0 :: _, o0 :: _ => Except.ok (combineOk self other s0 o0)

/-! ## Split engine (`GenericProduct.split_to_files`) -/

/-- The body of one loop iteration of `split_to_files`: select the Data
rows in the half-open interval `[day, day+1)` of the day key; if none
match, no fragment is emitted; otherwise select the Control rows whose
`index` is referenced, and renumber both by subtracting
`control_index_min`. -/
def dayFragment (dayF : DataRow → ℤ) (P : Product) (day : ℤ) : Option Product :=
  let i := P.data.filter (fun r => decide (day ≤ dayF r ∧ dayF r < day + 1))
  if i.isEmpty then none
  else
    let control_indices := npUniqueInt (i.map (fun r => r.control_index))
    let control := P.control.filter (fun c => decide (c.index ∈ control_indices))
    let control_index_min := listMin control_indices
    some { P with
           data := i.map (fun r => { r with control_index := r.control_index - control_index_min })
           control := control.map (fun c => { c with index := c.index - control_index_min }) }

/-- Both `for day in ...:` loops of `split_to_files`, over a given day
key and day list. -/
def fragmentsOf (dayF : DataRow → ℤ) (days : List ℤ) (P : Product) : List Product :=
  days.filterMap (dayFragment dayF P)

/-- `GenericProduct.split_to_files`.  For L0 products the day key is the
spacecraft-time day (`SCETime.get_scedays`, collaborator outside
`src/`, passed in as `sceday`) and the day list is `np.unique` of the
rows' days.  For L1/L2 products the day key is the UTC calendar day
(passed in as `utcday`) and the day list is modelled from the spec:
`TimeRange.get_dates` yields every calendar day from the day of
`scet_timerange.start` to the day of `scet_timerange.end`; on an empty
Data table `scet_timerange` raises (`none`). -/
def split_to_files (sceday utcday : ℚ → ℤ) (P : Product) : Option (List Product) :=
  match P.level with
  | Level.L0 =>
    some (fragmentsOf (fun r => sceday r.time)
      (npUniqueInt (P.data.map (fun r => sceday r.time))) P)
  | _ =>
    match scet_timerange P with
    | none => none
    | some se =>
      some (fragmentsOf (fun r => utcday r.time)
        (intRange (utcday se.1) (utcday se.2)) P)

end GenericProduct


/-- Modelled from the spec: the time service's "absolute time →
instrument-clock day number" map (`SCETime.get_scedays`, outside
`src/`), for times measured in seconds: the floor of `t / 86400`,
written with integer division (see `scedayModel_eq_floor`) so that it
evaluates on concrete inputs. -/
def scedayModel (t : ℚ) : ℤ := t.num / (86400 * (t.den : ℤ))

/-- Modelled from the spec: the time service's "absolute time → UTC
calendar day" map (outside `src/`), for times measured in seconds. -/
def utcdayModel (t : ℚ) : ℤ := t.num / (86400 * (t.den : ℤ))

/-! ## Level transitions (`L1Mixin.from_level0`, `L2Mixin.from_level1`)

`GenericProduct.__init__` stores the passed tables without copying, so
the product built by `from_level0` shares (`aliases`) the predecessor's
Control and Data tables; `replace_column('parent', ...)` then mutates
that shared Control table in place.  The embedding returns the pair
`(result, predecessor after the call)` to express this aliasing effect.
The calibration collaborator `engineering.raw_to_engineering_product`
(outside `src/`) is not part of the embedding; only the in-`src/`
effects are modelled. -/

namespace L1Mixin

/-- `L1Mixin.from_level0(l0product, parent)`: build the L1 product on
the same table pair, overwrite the shared Control table's `parent`
column, tag the level L1.  Returns `(l1, l0product after the call)`. -/
def from_level0 (l0product : Product) (parent : String) : Product × Product :=
  let ctrl := l0product.control.map (fun c => { c with parent := parent })
  ({ l0product with control := ctrl, level := Level.L1 },
   { l0product with control := ctrl })

end L1Mixin


namespace L2Mixin

/-- `L2Mixin.from_level1(l1product, parent)` (the Path-name
normalization of `parent` is embedded as passing the name string):
build the L2 product on the same table pair, overwrite the shared
Control table's `parent` column, tag the level L2.  Returns
`(l2, l1product after the call)`; the code wraps `l2` in a one-element
list. -/
def from_level1 (l1product : Product) (parent : String) : Product × Product :=
  let ctrl := l1product.control.map (fun c => { c with parent := parent })
  ({ l1product with control := ctrl, level := Level.L2 },
   { l1product with control := ctrl })

end L2Mixin


/-! ## Support lemmas for the split engine -/

/-- The content of a Data row apart from the (renumbered) foreign key:
`(time, timedel, value)`. -/
def rowContent (r : DataRow) : ℚ × ℚ × ℤ := (r.time, r.timedel, r.value)

/-- Registry used to witness C4 (two registered predicates). -/
def regC4 : List (PClass × (Attrs → Bool)) :=
  [(PClass.genericProduct, fun a => a.service_type == 21),
   (PClass.defaultProduct, fun a => a.service_subtype == 99)]

/-- Attributes used to witness C4 (exactly one predicate matches). -/
def attrsC4 : Attrs :=
  { level := Level.L0
    service_type := 21
    service_subtype := 6
    ssid := none
    control := []
    data := []
    energies := none }

/-! ## Claim C1 (corrected): level transitions alias and mutate -/

/-- L0 product used to refute C1 as stated. -/
def prodC1 : Product :=
  { cls := PClass.defaultProduct
    service_type := 21
    service_subtype := 6
    ssid := some 30
    level := Level.L0
    control := [{ index := 0, parent := "raw.fits" }]
    data := [{ time := 1, timedel := 2, control_index := 0, value := 5 }]
    idb_versions := [(1, some (0, 2))] }

/-! ## Claim C5 (corrected): the merge type check is `isinstance` -/

/-- `GenericProduct`-classed product used to refute C5 as stated. -/
def prodC5G : Product :=
  { cls := PClass.genericProduct
    service_type := 21
    service_subtype := 6
    ssid := some 30
    level := Level.L0
    control := [{ index := 0, parent := "g.fits" }]
    data := [{ time := 0, timedel := 1, control_index := 0, value := 1 }]
    idb_versions := [] }

/-- `DefaultProduct`-classed product used to refute C5 as stated. -/
def prodC5D : Product :=
  { cls := PClass.defaultProduct
    service_type := 21
    service_subtype := 6
    ssid := some 30
    level := Level.L0
    control := [{ index := 0, parent := "d.fits" }]
    data := [{ time := 10, timedel := 1, control_index := 0, value := 2 }]
    idb_versions := [] }

/-- Product with empty Data used to witness C10. -/
def prodC10E : Product :=
  { cls := PClass.defaultProduct
    service_type := 3
    service_subtype := 25
    ssid := some 1
    level := Level.L0
    control := [{ index := 0, parent := "e.fits" }]
    data := []
    idb_versions := [] }

/-- Product with non-empty Data used to witness C10. -/
def prodC10N : Product :=
  { cls := PClass.defaultProduct
    service_type := 3
    service_subtype := 25
    ssid := some 1
    level := Level.L0
    control := [{ index := 0, parent := "n.fits" }]
    data := [{ time := 4, timedel := 1, control_index := 0, value := 7 }]
    idb_versions := [] }


/-- The Data rows of product `P` falling on day `d` (since day keys are
integers, membership in `[d, d+1)` is equality with `d`). -/
def dayRows (dayF : DataRow → ℤ) (P : Product) (d : ℤ) : List DataRow :=
  P.data.filter (fun r => decide (dayF r = d))

/-- The `control_indices` of one `split_to_files` iteration: the sorted
distinct Control indices referenced by day `d`'s Data rows. -/
def dayRefs (dayF : DataRow → ℤ) (P : Product) (d : ℤ) : List ℤ :=
  npUniqueInt ((dayRows dayF P d).map (fun r => r.control_index))

/-- L0 product with samples on instrument-days `{100, 101, 103}` (for
`scedayModel`), used to witness C7. -/
def prodC7W : Product :=
  { cls := PClass.defaultProduct
    service_type := 21
    service_subtype := 6
    ssid := some 30
    level := Level.L0
    control := [{ index := 0, parent := "w7.fits" }]
    data := [{ time := 8640000, timedel := 1, control_index := 0, value := 1 },
             { time := 8640005, timedel := 1, control_index := 0, value := 2 },
             { time := 8726400, timedel := 1, control_index := 0, value := 3 },
             { time := 8899200, timedel := 1, control_index := 0, value := 4 }]
    idb_versions := [] }

/-- Two-day L1 product used to witness C8 (exercises the UTC-day
branch). -/
def prodC8W : Product :=
  { cls := PClass.defaultProduct
    service_type := 21
    service_subtype := 6
    ssid := some 30
    level := Level.L1
    control := [{ index := 0, parent := "w8.fits" }]
    data := [{ time := 10, timedel := 1, control_index := 0, value := 1 },
             { time := 86410, timedel := 1, control_index := 0, value := 2 }]
    idb_versions := [] }

/-- L0 product whose first day references the non-contiguous Control
index set `{0, 2}`; used to refute C2 as stated. -/
def prodC2cx : Product :=
  { cls := PClass.defaultProduct
    service_type := 21
    service_subtype := 6
    ssid := some 30
    level := Level.L0
    control := [{ index := 0, parent := "c2.fits" },
                { index := 1, parent := "c2.fits" },
                { index := 2, parent := "c2.fits" }]
    data := [{ time := 10, timedel := 1, control_index := 0, value := 1 },
             { time := 20, timedel := 1, control_index := 2, value := 2 },
             { time := 86410, timedel := 1, control_index := 1, value := 3 }]
    idb_versions := [] }

/-- L0 product whose per-day referenced Control indices are contiguous;
used to witness the amended C2. -/
def prodC2W : Product :=
  { cls := PClass.defaultProduct
    service_type := 21
    service_subtype := 6
    ssid := some 30
    level := Level.L0
    control := [{ index := 0, parent := "w2.fits" },
                { index := 1, parent := "w2.fits" }]
    data := [{ time := 10, timedel := 1, control_index := 0, value := 1 },
             { time := 20, timedel := 1, control_index := 1, value := 2 },
             { time := 86410, timedel := 1, control_index := 1, value := 3 }]
    idb_versions := [] }

/-- Products used to witness C3. -/
def prodC3A : Product :=
  { cls := PClass.defaultProduct
    service_type := 21
    service_subtype := 6
    ssid := some 30
    level := Level.L0
    control := [{ index := 0, parent := "a3.fits" }, { index := 1, parent := "a3.fits" }]
    data := [{ time := ((10 : ℤ) : ℚ), timedel := 1, control_index := 0, value := 1 },
             { time := ((20 : ℤ) : ℚ), timedel := 1, control_index := 1, value := 2 }]
    idb_versions := [(1, some (0, 5))] }

def prodC3B : Product :=
  { cls := PClass.defaultProduct
    service_type := 21
    service_subtype := 6
    ssid := some 30
    level := Level.L0
    control := [{ index := 0, parent := "b3.fits" }]
    data := [{ time := ((15 : ℤ) : ℚ), timedel := 1, control_index := 0, value := 3 }]
    idb_versions := [(1, some (4, 9))] }

/-- Products used to witness C6 (disjoint integer times). -/
def prodC6A : Product :=
  { cls := PClass.defaultProduct
    service_type := 21
    service_subtype := 6
    ssid := some 30
    level := Level.L0
    control := [{ index := 0, parent := "a6.fits" }]
    data := [{ time := ((10 : ℤ) : ℚ), timedel := 1, control_index := 0, value := 1 },
             { time := ((20 : ℤ) : ℚ), timedel := 1, control_index := 0, value := 2 }]
    idb_versions := [] }

def prodC6B : Product :=
  { cls := PClass.defaultProduct
    service_type := 21
    service_subtype := 6
    ssid := some 30
    level := Level.L0
    control := [{ index := 0, parent := "b6.fits" }]
    data := [{ time := ((30 : ℤ) : ℚ), timedel := 1, control_index := 0, value := 3 }]
    idb_versions := [] }

def prodC6C : Product :=
  { cls := PClass.defaultProduct
    service_type := 21
    service_subtype := 6
    ssid := some 30
    level := Level.L0
    control := [{ index := 0, parent := "c6.fits" }]
    data := [{ time := ((40 : ℤ) : ℚ), timedel := 1, control_index := 0, value := 4 }]
    idb_versions := [] }

/-- Products used to witness C9. -/
def prodC9A : Product :=
  { cls := PClass.defaultProduct
    service_type := 21
    service_subtype := 6
    ssid := some 30
    level := Level.L0
    control := [{ index := 0, parent := "a9.fits" }]
    data := [{ time := ((10 : ℤ) : ℚ), timedel := 1, control_index := 0, value := 1 }]
    idb_versions := [(1, some (0, 5))] }

def prodC9B : Product :=
  { cls := PClass.defaultProduct
    service_type := 21
    service_subtype := 6
    ssid := some 30
    level := Level.L0
    control := [{ index := 0, parent := "b9.fits" }]
    data := [{ time := ((20 : ℤ) : ℚ), timedel := 1, control_index := 0, value := 2 }]
    idb_versions := [(1, some (3, 9)), (2, some (1, 2))] }

/-! ## Theorems -/

theorem roundHalfEven_ge_floor (x : ℚ) : ⌊x⌋ ≤ roundHalfEven x := by
  unfold roundHalfEven
  dsimp only
  split
  · exact le_refl _
  · split
    · omega
    · split <;> omega

theorem roundHalfEven_le_floor_add_one (x : ℚ) : roundHalfEven x ≤ ⌊x⌋ + 1 := by
  unfold roundHalfEven
  dsimp only
  split
  · omega
  · split
    · omega
    · split <;> omega

theorem roundHalfEven_mono {x y : ℚ} (h : x ≤ y) :
    roundHalfEven x ≤ roundHalfEven y := by
  rcases lt_or_eq_of_le (Int.floor_le_floor h) with hf | hf
  · calc roundHalfEven x ≤ ⌊x⌋ + 1 := roundHalfEven_le_floor_add_one x
      _ ≤ ⌊y⌋ := by omega
      _ ≤ roundHalfEven y := roundHalfEven_ge_floor y
  · unfold roundHalfEven
    dsimp only
    rw [hf]
    by_cases hy1 : y - (⌊y⌋ : ℚ) < 1/2
    · have hx1 : x - (⌊y⌋ : ℚ) < 1/2 := lt_of_le_of_lt (by linarith) hy1
      simp only [if_pos hx1, if_pos hy1]
      exact le_refl _
    · by_cases hx1 : x - (⌊y⌋ : ℚ) < 1/2
      · simp only [if_pos hx1, if_neg hy1]
        split
        · omega
        · split <;> omega
      · by_cases hx2 : 1/2 < x - (⌊y⌋ : ℚ)
        · have hy2 : 1/2 < y - (⌊y⌋ : ℚ) := lt_of_lt_of_le hx2 (by linarith)
          simp only [if_neg hx1, if_neg hy1, if_pos hx2, if_pos hy2]
          exact le_refl _
        · simp only [if_neg hx1, if_neg hy1, if_neg hx2]
          split <;> split <;> omega

theorem round2key_mono {x y : ℚ} (h : x ≤ y) : round2key x ≤ round2key y :=
  roundHalfEven_mono (by linarith)

theorem mem_intRange {a b x : ℤ} : x ∈ intRange a b ↔ a ≤ x ∧ x ≤ b := by
  unfold intRange
  simp only [List.mem_map, List.mem_range]
  constructor
  · rintro ⟨i, hi, rfl⟩
    omega
  · rintro ⟨h1, h2⟩
    exact ⟨(x - a).toNat, by omega, by omega⟩

theorem intRange_length (a b : ℤ) : (intRange a b).length = (b + 1 - a).toNat := by
  simp [intRange]

theorem intRange_nodup (a b : ℤ) : (intRange a b).Nodup := by
  unfold intRange
  refine List.Nodup.map ?_ (List.nodup_range _)
  intro i j hij
  have h2 : (i : ℤ) = (j : ℤ) := by simpa using hij
  omega

theorem intRange_sorted (a b : ℤ) : (intRange a b).Pairwise (· < ·) := by
  unfold intRange
  rw [List.pairwise_map]
  refine List.Pairwise.imp ?_ (List.pairwise_lt_range _)
  intro i j h
  omega

theorem intRange_map_sub (a b c : ℤ) :
    (intRange a b).map (fun x => x - c) = intRange (a - c) (b - c) := by
  unfold intRange
  rw [List.map_map]
  have h : b - c + 1 - (a - c) = b + 1 - a := by ring
  rw [h]
  apply List.map_congr_left
  intro i _
  simp only [Function.comp_apply]
  ring

theorem count_intRange (a b x : ℤ) :
    (intRange a b).count x = if a ≤ x ∧ x ≤ b then 1 else 0 := by
  rcases Decidable.em (a ≤ x ∧ x ≤ b) with h | h
  · rw [if_pos h]
    exact List.count_eq_one_of_mem (intRange_nodup a b) (mem_intRange.mpr h)
  · rw [if_neg h]
    exact List.count_eq_zero_of_not_mem (fun hm => h (mem_intRange.mp hm))

theorem insertByKey_perm {α : Type} (key : α → ℤ) (x : α) (l : List α) :
    (insertByKey key x l).Perm (x :: l) := by
  induction l with
  | nil => exact List.Perm.refl _
  | cons y ys ih =>
    unfold insertByKey
    split
    · exact ((ih.cons y).trans (List.Perm.swap x y ys))
    · exact List.Perm.refl _

theorem sortByKey_perm {α : Type} (key : α → ℤ) (l : List α) :
    (sortByKey key l).Perm l := by
  induction l with
  | nil => exact List.Perm.refl _
  | cons x xs ih =>
    exact (insertByKey_perm key x (sortByKey key xs)).trans (ih.cons x)

theorem insertByKey_pairwise {α : Type} (key : α → ℤ) (x : α) {l : List α}
    (h : l.Pairwise (fun a b => key a ≤ key b)) :
    (insertByKey key x l).Pairwise (fun a b => key a ≤ key b) := by
  induction l with
  | nil => simp [insertByKey]
  | cons y ys ih =>
    rw [List.pairwise_cons] at h
    unfold insertByKey
    split
    · rename_i hk
      rw [List.pairwise_cons]
      refine ⟨?_, ih h.2⟩
      intro a ha
      rcases List.mem_cons.mp ((insertByKey_perm key x ys).mem_iff.mp ha) with h1 | h1
      · subst h1; exact le_of_lt hk
      · exact h.1 a h1
    · rename_i hk
      push_neg at hk
      rw [List.pairwise_cons]
      refine ⟨?_, List.pairwise_cons.mpr h⟩
      intro a ha
      rcases List.mem_cons.mp ha with h1 | h1
      · subst h1; exact hk
      · exact le_trans hk (h.1 a h1)

theorem sortByKey_pairwise {α : Type} (key : α → ℤ) (l : List α) :
    (sortByKey key l).Pairwise (fun a b => key a ≤ key b) := by
  induction l with
  | nil => simp [sortByKey]
  | cons x xs ih => exact insertByKey_pairwise key x ih

theorem dedupKeysAux_sublist {α : Type} (key : α → ℤ) (seen : List ℤ) (l : List α) :
    (dedupKeysAux key seen l).Sublist l := by
  induction l generalizing seen with
  | nil => exact List.Sublist.refl _
  | cons x xs ih =>
    unfold dedupKeysAux
    split
    · exact (ih seen).trans (List.sublist_cons_self x xs)
    · exact List.Sublist.cons₂ x (ih (key x :: seen))

theorem dedupKeys_sublist {α : Type} (key : α → ℤ) (l : List α) :
    (dedupKeys key l).Sublist l :=
  dedupKeysAux_sublist key [] l

theorem dedupKeysAux_nodup_and_fresh {α : Type} (key : α → ℤ) (seen : List ℤ)
    (l : List α) :
    ((dedupKeysAux key seen l).map key).Nodup ∧
      ∀ k ∈ (dedupKeysAux key seen l).map key, k ∉ seen := by
  induction l generalizing seen with
  | nil => exact ⟨List.nodup_nil, by intro k hk; simp [dedupKeysAux] at hk⟩
  | cons x xs ih =>
    unfold dedupKeysAux
    split
    · exact ih seen
    · rename_i hx
      obtain ⟨h1, h2⟩ := ih (key x :: seen)
      rw [List.map_cons]
      constructor
      · rw [List.nodup_cons]
        refine ⟨?_, h1⟩
        intro hmem
        exact (h2 _ hmem) (List.mem_cons_self _ _)
      · intro k hk
        rcases List.mem_cons.mp hk with h3 | h3
        · subst h3; exact hx
        · intro hser
          exact (h2 _ h3) (List.mem_cons_of_mem _ hser)

theorem dedupKeys_map_key_nodup {α : Type} (key : α → ℤ) (l : List α) :
    ((dedupKeys key l).map key).Nodup :=
  (dedupKeysAux_nodup_and_fresh key [] l).1

theorem dedupKeysAux_eq_self {α : Type} (key : α → ℤ) {seen : List ℤ} {l : List α}
    (h : (l.map key).Nodup) (hfresh : ∀ a ∈ l, key a ∉ seen) :
    dedupKeysAux key seen l = l := by
  induction l generalizing seen with
  | nil => rfl
  | cons x xs ih =>
    rw [List.map_cons, List.nodup_cons] at h
    unfold dedupKeysAux
    rw [if_neg (hfresh x (List.mem_cons_self _ _))]
    congr 1
    refine ih h.2 ?_
    intro a ha
    intro hmem
    rcases List.mem_cons.mp hmem with h3 | h3
    · exact h.1 (h3 ▸ List.mem_map_of_mem key ha)
    · exact hfresh a (List.mem_cons_of_mem _ ha) h3

theorem dedupKeys_eq_self {α : Type} (key : α → ℤ) {l : List α}
    (h : (l.map key).Nodup) : dedupKeys key l = l :=
  dedupKeysAux_eq_self key h (by intro a _ hm; simp at hm)

theorem dayModel_eq_floor (t : ℚ) :
    t.num / (86400 * (t.den : ℤ)) = ⌊t / 86400⌋ := by
  have h1 : ((86400 * t.den : ℕ) : ℚ) = 86400 * (t.den : ℚ) := by
    push_cast
    ring
  have h2 : t / 86400 = (t.num : ℚ) / ((86400 * t.den : ℕ) : ℚ) := by
    rw [h1]
    conv_lhs => rw [← Rat.num_div_den t]
    rw [div_div, mul_comm]
  rw [h2, Rat.floor_intCast_div_natCast]
  push_cast
  rfl

theorem utcdayModel_mono : ∀ a b : ℚ, a ≤ b → utcdayModel a ≤ utcdayModel b := by
  intro a b h
  unfold utcdayModel
  rw [dayModel_eq_floor, dayModel_eq_floor]
  have h2 : a / 86400 ≤ b / 86400 := by
    rw [div_le_div_iff_of_pos_right (by norm_num)]
    exact h
  exact Int.floor_le_floor h2

theorem dedupKeysAux_key_mem {α : Type} (key : α → ℤ) (seen : List ℤ) (l : List α) :
    ∀ a ∈ l, key a ∈ seen ∨ key a ∈ (dedupKeysAux key seen l).map key := by
  induction l generalizing seen with
  | nil => intro a ha; simp at ha
  | cons x xs ih =>
    intro a ha
    unfold dedupKeysAux
    split
    · rename_i hx
      rcases List.mem_cons.mp ha with h1 | h1
      · subst h1; exact Or.inl hx
      · exact ih seen a h1
    · rename_i hx
      rcases List.mem_cons.mp ha with h1 | h1
      · subst h1
        exact Or.inr (by rw [List.map_cons]; exact List.mem_cons_self _ _)
      · rcases ih (key x :: seen) a h1 with h2 | h2
        · rcases List.mem_cons.mp h2 with h3 | h3
          · exact Or.inr (by rw [List.map_cons, h3]; exact List.mem_cons_self _ _)
          · exact Or.inl h3
        · exact Or.inr (by rw [List.map_cons]; exact List.mem_cons_of_mem _ h2)

theorem npUniqueInt_mem {l : List ℤ} {x : ℤ} : x ∈ npUniqueInt l ↔ x ∈ l := by
  constructor
  · intro h
    exact (sortByKey_perm id l).mem_iff.mp ((dedupKeysAux_sublist id [] _).mem h)
  · intro h
    have h1 : x ∈ sortByKey id l := (sortByKey_perm id l).mem_iff.mpr h
    rcases dedupKeysAux_key_mem id [] (sortByKey id l) x h1 with h2 | h2
    · simp at h2
    · simpa using h2

theorem npUniqueInt_nodup (l : List ℤ) : (npUniqueInt l).Nodup := by
  have h := dedupKeys_map_key_nodup id (sortByKey id l)
  simpa using h

theorem npUniqueInt_sorted (l : List ℤ) : (npUniqueInt l).Pairwise (· < ·) := by
  have h1 : (sortByKey id l).Pairwise (fun a b => a ≤ b) := by
    simpa using sortByKey_pairwise id l
  have h2 : (npUniqueInt l).Pairwise (fun a b => a ≤ b) :=
    List.Pairwise.sublist (dedupKeysAux_sublist id [] (sortByKey id l)) h1
  have h3 : (npUniqueInt l).Pairwise (fun a b => a ≠ b) := npUniqueInt_nodup l
  exact (h2.and h3).imp (fun h => lt_of_le_of_ne h.1 h.2)

theorem npUniqueInt_ne_nil {l : List ℤ} (h : l ≠ []) : npUniqueInt l ≠ [] := by
  have hlen : (sortByKey id l).length = l.length := (sortByKey_perm id l).length_eq
  rcases hs : sortByKey id l with _ | ⟨y, ys⟩
  · rw [hs] at hlen
    exact absurd (List.length_eq_zero.mp hlen.symm) h
  · unfold npUniqueInt dedupKeys
    rw [hs]
    unfold dedupKeysAux
    simp

/-- Filtering on a predicate of the mapped value commutes with `map`. -/
theorem map_filter_comm {α β : Type} (f : α → β) (p : β → Bool) (l : List α) :
    (l.filter (fun x => p (f x))).map f = (l.map f).filter p := by
  induction l with
  | nil => rfl
  | cons x xs ih =>
    by_cases h : p (f x)
    · simp only [List.filter_cons, List.map_cons, h, if_pos]
      rw [ih]
    · simp only [List.filter_cons, List.map_cons, h]
      simpa using ih

/-- Filtering a strictly sorted list by membership in a strictly sorted
sublist-by-membership returns that list. -/
theorem filter_mem_of_sorted {s S : List ℤ} (hs : s.Pairwise (· < ·))
    (hS : S.Pairwise (· < ·)) (hsub : ∀ x ∈ S, x ∈ s) :
    s.filter (fun x => decide (x ∈ S)) = S := by
  induction s generalizing S with
  | nil =>
    rcases S with _ | ⟨y, S'⟩
    · rfl
    · exact absurd (hsub y (List.mem_cons_self _ _)) (by simp)
  | cons a s' ih =>
    rw [List.pairwise_cons] at hs
    by_cases ha : a ∈ S
    · rcases hSs : S with _ | ⟨y, S'⟩
      · rw [hSs] at ha; simp at ha
      · subst hSs
        have hya : y = a := by
          rcases List.mem_cons.mp (hsub y (List.mem_cons_self _ _)) with h1 | h1
          · exact h1
          · rcases List.mem_cons.mp ha with h2 | h2
            · exact absurd (h2 ▸ h1) (by intro hc; exact absurd (hs.1 a hc) (lt_irrefl _))
            · rw [List.pairwise_cons] at hS
              exact absurd (hs.1 y h1) (not_lt.mpr (le_of_lt (hS.1 a h2)))
        subst hya
        rw [List.pairwise_cons] at hS
        rw [List.filter_cons, if_pos (by simp)]
        congr 1
        have hstep : s'.filter (fun x => decide (x ∈ y :: S')) =
            s'.filter (fun x => decide (x ∈ S')) := by
          apply List.filter_congr
          intro x hx
          have hxy : y ≠ x := fun hc => absurd (hc ▸ hs.1 x hx) (lt_irrefl _)
          simp only [decide_eq_decide, List.mem_cons]
          constructor
          · intro h1
            rcases h1 with h1 | h1
            · exact absurd h1.symm hxy
            · exact h1
          · exact Or.inr
        rw [hstep]
        refine ih hs.2 hS.2 ?_
        intro x hx
        rcases List.mem_cons.mp (hsub x (List.mem_cons_of_mem _ hx)) with h1 | h1
        · exact absurd (h1 ▸ hS.1 x hx) (lt_irrefl _)
        · exact h1
    · rw [List.filter_cons, if_neg (by simpa using ha)]
      refine ih hs.2 hS ?_
      intro x hx
      rcases List.mem_cons.mp (hsub x hx) with h1 | h1
      · exact absurd (h1 ▸ hx) ha
      · exact h1

theorem foldl_min_eq {l : List ℤ} {x : ℤ} (h : ∀ y ∈ l, x ≤ y) :
    l.foldl min x = x := by
  induction l generalizing x with
  | nil => rfl
  | cons y ys ih =>
    have hxy : min x y = x := min_eq_left (h y (List.mem_cons_self _ _))
    rw [List.foldl_cons, hxy]
    exact ih (fun z hz => h z (List.mem_cons_of_mem _ hz))

theorem listMin_of_sorted {x : ℤ} {xs : List ℤ}
    (h : (x :: xs).Pairwise (· < ·)) : listMin (x :: xs) = x := by
  rw [List.pairwise_cons] at h
  exact foldl_min_eq (fun y hy => le_of_lt (h.1 y hy))

theorem pairwise_head_le {x : DataRow} {xs : List DataRow}
    (h : (x :: xs).Pairwise (fun a b => a.time ≤ b.time)) :
    ∀ r ∈ x :: xs, x.time ≤ r.time := by
  rw [List.pairwise_cons] at h
  intro r hr
  rcases List.mem_cons.mp hr with h1 | h1
  · rw [h1]
  · exact h.1 r h1

theorem pairwise_le_getLast {x : DataRow} {xs : List DataRow}
    (h : (x :: xs).Pairwise (fun a b => a.time ≤ b.time)) :
    ∀ r ∈ x :: xs, r.time ≤ ((x :: xs).getLast (by simp)).time := by
  induction xs generalizing x with
  | nil =>
    intro r hr
    have hrx : r = x := by simpa using hr
    rw [hrx, List.getLast_singleton]
  | cons y ys ih =>
    rw [List.pairwise_cons] at h
    intro r hr
    rw [List.getLast_cons (by simp : (y :: ys) ≠ [])]
    rcases List.mem_cons.mp hr with h1 | h1
    · subst h1
      exact le_trans (h.1 _ (List.getLast_mem _)) (le_refl _)
    · exact ih h.2 r h1

/-! ## Claim C4: registry dispatch -/

/-- C4: for every registry and attribute tuple, with `N` the number of
predicates returning true: `N = 0` selects the default variant when
configured and otherwise raises `NoMatchError`; `N = 1` selects the
unique matching variant; `N > 1` raises `MultipleMatchError`. -/
theorem C4_registry_dispatch {α : Type} (registry : List (α × (Attrs → Bool)))
    (dflt : Option α) (a : Attrs) :
    ((registry.filter (fun p => p.2 a)).length = 0 → dflt = none →
      ProductFactory.check_registered_widget registry dflt a =
        Except.error DispatchError.noMatch) ∧
    (∀ d, (registry.filter (fun p => p.2 a)).length = 0 → dflt = some d →
      ProductFactory.check_registered_widget registry dflt a = Except.ok d) ∧
    ((registry.filter (fun p => p.2 a)).length = 1 →
      ∀ e ∈ registry, e.2 a = true →
      ProductFactory.check_registered_widget registry dflt a = Except.ok e.1) ∧
    (1 < (registry.filter (fun p => p.2 a)).length →
      ProductFactory.check_registered_widget registry dflt a =
        Except.error
          (DispatchError.multipleMatch (registry.filter (fun p => p.2 a)).length)) := by
  unfold ProductFactory.check_registered_widget
  rcases hl : registry.filter (fun p => p.2 a) with _ | ⟨x, _ | ⟨y, rest⟩⟩ <;> rw [hl]
  · refine ⟨?_, ?_, ?_, ?_⟩
    · intro _ hd
      subst hd
      rfl
    · intro d _ hd
      subst hd
      rfl
    · intro h1
      simp at h1
    · intro h1
      simp at h1
  · refine ⟨?_, ?_, ?_, ?_⟩
    · intro h0
      simp at h0
    · intro d h0
      simp at h0
    · intro _ e he hpred
      have hmem : e ∈ registry.filter (fun p => p.2 a) :=
        List.mem_filter.mpr ⟨he, by simp [hpred]⟩
      rw [hl] at hmem
      have hex : e = x := by simpa using hmem
      subst hex
      rfl
    · intro h1
      simp at h1
  · refine ⟨?_, ?_, ?_, ?_⟩
    · intro h0
      simp at h0
    · intro d h0
      simp at h0
    · intro h1
      simp at h1
    · intro _
      simp

theorem C4_registry_dispatch_witness :
    ProductFactory.check_registered_widget regC4 (some PClass.defaultProduct) attrsC4 =
      Except.ok PClass.genericProduct := by
  refine (C4_registry_dispatch regC4 (some PClass.defaultProduct) attrsC4).2.2.1
    (by decide) (PClass.genericProduct, fun a => a.service_type == 21) ?_ (by decide)
  unfold regC4
  exact List.Mem.head _

/-- C1 counterexample: on `prodC1`, `from_level0` (and `from_level1`)
overwrite the `parent` column of the Control table shared with the
predecessor, so the predecessor's control table is changed by the
call. -/
theorem C1_counterexample :
    (L1Mixin.from_level0 prodC1 "l1_parent.fits").2.control ≠ prodC1.control ∧
    (L2Mixin.from_level1 prodC1 "l2_parent.fits").2.control ≠ prodC1.control := by
  constructor <;> decide

/-- C1 amended: `from_level0`/`from_level1` return a new Product tagged
with the next level, but the tables are shared with the predecessor and
the shared Control table's `parent` column is overwritten in place: the
predecessor's control rows all carry the new parent afterwards, while
its Data table and `idb_versions` are not modified by the in-`src/`
code. -/
theorem C1_amended (l0product : Product) (parent : String) :
    (L1Mixin.from_level0 l0product parent).1.level = Level.L1 ∧
    (L1Mixin.from_level0 l0product parent).1.data = l0product.data ∧
    (L1Mixin.from_level0 l0product parent).1.idb_versions = l0product.idb_versions ∧
    (L1Mixin.from_level0 l0product parent).2.control =
      l0product.control.map (fun c => { c with parent := parent }) ∧
    (L1Mixin.from_level0 l0product parent).2.data = l0product.data ∧
    (L1Mixin.from_level0 l0product parent).2.idb_versions = l0product.idb_versions ∧
    (L1Mixin.from_level0 l0product parent).2.level = l0product.level ∧
    (L2Mixin.from_level1 l0product parent).1.level = Level.L2 ∧
    (L2Mixin.from_level1 l0product parent).1.data = l0product.data ∧
    (L2Mixin.from_level1 l0product parent).1.idb_versions = l0product.idb_versions ∧
    (L2Mixin.from_level1 l0product parent).2.control =
      l0product.control.map (fun c => { c with parent := parent }) ∧
    (L2Mixin.from_level1 l0product parent).2.data = l0product.data ∧
    (L2Mixin.from_level1 l0product parent).2.idb_versions = l0product.idb_versions :=
  ⟨rfl, rfl, rfl, rfl, rfl, rfl, rfl, rfl, rfl, rfl, rfl, rfl, rfl⟩

/-- C5 counterexample: `prodC5G` and `prodC5D` are different concrete
variants, yet `combine(prodC5G, prodC5D)` raises no error, because
`isinstance(other, type(self))` accepts a subclass instance. -/
theorem C5_counterexample :
    prodC5G.cls ≠ prodC5D.cls ∧
    exceptIsOk (GenericProduct.add prodC5G prodC5D) = true := by
  constructor <;> decide

/-- C5 amended: `combine(self, other)` raises the type error identifying
both types if and only if `other` is not an instance of `self`'s class
(its class is neither `self`'s class nor a subclass of it); when the
`isinstance` check passes and both Data tables are non-empty, no error
is raised and the result's class and level are `self`'s. -/
theorem C5_amended (self other : Product) :
    (GenericProduct.add self other =
        Except.error (CombineError.typeError self.cls other.cls) ↔
      isinstanceOf other.cls self.cls = false) ∧
    (isinstanceOf other.cls self.cls = true → self.data ≠ [] → other.data ≠ [] →
      ∃ res, GenericProduct.add self other = Except.ok res ∧
        res.cls = self.cls ∧ res.level = self.level) := by
  constructor
  · constructor
    · intro heq
      by_cases hinst : isinstanceOf other.cls self.cls = false
      · exact hinst
      · exfalso
        rw [Bool.not_eq_false] at hinst
        unfold GenericProduct.add at heq
        rw [hinst] at heq
        simp only [Bool.true_eq_false, if_false] at heq
        rcases hs : self.data with _ | ⟨s0, srest⟩ <;> rw [hs] at heq
        · simp at heq
        · rcases ho : other.data with _ | ⟨o0, orest⟩ <;> rw [ho] at heq <;> simp at heq
    · intro hinst
      unfold GenericProduct.add
      rw [hinst]
      simp
  · intro hinst hs ho
    unfold GenericProduct.add
    rw [hinst]
    simp only [Bool.true_eq_false, if_false]
    rcases hsd : self.data with _ | ⟨s0, srest⟩
    · exact absurd hsd hs
    · rcases hod : other.data with _ | ⟨o0, orest⟩
      · exact absurd hod ho
      · exact ⟨GenericProduct.combineOk self other s0 o0, rfl, rfl, rfl⟩

theorem C5_amended_witness :
    (GenericProduct.add prodC5D prodC5G =
        Except.error (CombineError.typeError prodC5D.cls prodC5G.cls) ↔
      isinstanceOf prodC5G.cls prodC5D.cls = false) ∧
    (∃ res, GenericProduct.add prodC5D prodC5D = Except.ok res ∧
      res.cls = prodC5D.cls ∧ res.level = prodC5D.level) :=
  ⟨(C5_amended prodC5D prodC5G).1,
   (C5_amended prodC5D prodC5D).2 (by decide) (by decide) (by decide)⟩

/-! ## Claim C10: empty-Data indexing in `scet_timerange` and `combine` -/

/-- C10: `scet_timerange` fails with an indexing error exactly on an
empty Data table; `combine` (after the type check) reads
`self.scet_timerange.start` then `other.scet_timerange.start`, so an
empty operand fails with the indexing error, and with both operands
non-empty the indexing is in-bounds and `combine` reaches its normal
path. -/
theorem C10_empty_data_indexing (A B : Product) :
    (GenericProduct.scet_timerange A = none ↔ A.data = []) ∧
    (isinstanceOf B.cls A.cls = true → A.data = [] →
      GenericProduct.add A B = Except.error CombineError.indexError) ∧
    (isinstanceOf B.cls A.cls = true → A.data ≠ [] → B.data = [] →
      GenericProduct.add A B = Except.error CombineError.indexError) ∧
    (isinstanceOf B.cls A.cls = true → A.data ≠ [] → B.data ≠ [] →
      exceptIsOk (GenericProduct.add A B) = true) := by
  refine ⟨?_, ?_, ?_, ?_⟩
  · unfold GenericProduct.scet_timerange
    rcases hA : A.data with _ | ⟨a0, arest⟩
    · simp
    · simp [List.getLast?_eq_getLast _ (by simp : a0 :: arest ≠ [])]
  · intro hinst hempty
    unfold GenericProduct.add
    rw [hinst, hempty]
    simp
  · intro hinst hs hempty
    unfold GenericProduct.add
    rw [hinst, hempty]
    rcases hsd : A.data with _ | ⟨s0, srest⟩
    · exact absurd hsd hs
    · simp
  · intro hinst hs ho
    unfold GenericProduct.add
    rw [hinst]
    rcases hsd : A.data with _ | ⟨s0, srest⟩
    · exact absurd hsd hs
    · rcases hod : B.data with _ | ⟨o0, orest⟩
      · exact absurd hod ho
      · simp [exceptIsOk]

theorem C10_empty_data_indexing_witness :
    (GenericProduct.scet_timerange prodC10E = none ↔ prodC10E.data = []) ∧
    GenericProduct.add prodC10E prodC10N = Except.error CombineError.indexError ∧
    GenericProduct.add prodC10N prodC10E = Except.error CombineError.indexError ∧
    exceptIsOk (GenericProduct.add prodC10N prodC10N) = true := by
  obtain ⟨h1, h2, h3, h4⟩ := C10_empty_data_indexing prodC10E prodC10N
  obtain ⟨_, _, h3', h4'⟩ := C10_empty_data_indexing prodC10N prodC10E
  obtain ⟨_, _, _, h4''⟩ := C10_empty_data_indexing prodC10N prodC10N
  exact ⟨h1, h2 (by decide) (by decide), h3' (by decide) (by decide) (by decide),
    h4'' (by decide) (by decide) (by decide)⟩

theorem map_index_update (m : ℤ) (l : List ControlRow) : (l.map (fun c => { c with index := c.index - m })).map (fun c => c.index) = (l.map (fun c => c.index)).map (fun x => x - m) := by
  rw [List.map_map, List.map_map]
  rfl

theorem intRange_shift_to_zero (a k : ℤ) :
    (intRange a (a + k - 1)).map (fun x => x - a) = intRange 0 (k - 1) := by
  rw [intRange_map_sub]
  congr 1 <;> ring

theorem dayInterval_eq (d x : ℤ) :
    (decide (d ≤ x ∧ x < d + 1)) = (decide (x = d)) := by
  rw [decide_eq_decide]
  omega

theorem filter_interval (dayF : DataRow → ℤ) (l : List DataRow) (d : ℤ) :
    l.filter (fun r => decide (d ≤ dayF r ∧ dayF r < d + 1)) =
      l.filter (fun r => decide (dayF r = d)) :=
  List.filter_congr (fun r _ => dayInterval_eq d (dayF r))

theorem dayFragment_none_iff {dayF : DataRow → ℤ} {P : Product} {d : ℤ} :
    GenericProduct.dayFragment dayF P d = none ↔ dayRows dayF P d = [] := by
  unfold GenericProduct.dayFragment
  rw [filter_interval]
  unfold dayRows
  by_cases h : P.data.filter (fun r => decide (dayF r = d)) = []
  · simp [h]
  · simp [h, List.isEmpty_iff]

theorem dayFragment_some_eq {dayF : DataRow → ℤ} {P : Product} {d : ℤ} {f : Product}
    (h : GenericProduct.dayFragment dayF P d = some f) :
    f.data = (dayRows dayF P d).map
        (fun r => { r with control_index := r.control_index - listMin (dayRefs dayF P d) }) ∧
    f.control = (P.control.filter (fun c => decide (c.index ∈ dayRefs dayF P d))).map
        (fun c => { c with index := c.index - listMin (dayRefs dayF P d) }) ∧
    f.level = P.level ∧ f.idb_versions = P.idb_versions ∧
    dayRows dayF P d ≠ [] := by
  unfold GenericProduct.dayFragment at h
  rw [filter_interval] at h
  unfold dayRefs dayRows
  by_cases hemp : P.data.filter (fun r => decide (dayF r = d)) = []
  · rw [hemp] at h
    simp at h
  · rw [if_neg (by simpa [List.isEmpty_iff] using hemp)] at h
    have hf := (Option.some.injEq _ _).mp h
    subst hf
    exact ⟨rfl, rfl, rfl, rfl, hemp⟩

theorem filter_day_split {α : Type} (g : α → ℤ) (l : List α) (d : ℤ) (ds : List ℤ)
    (hd : d ∉ ds) :
    (l.filter (fun x => decide (g x = d)) ++
      l.filter (fun x => decide (g x ∈ ds))).Perm
      (l.filter (fun x => decide (g x ∈ d :: ds))) := by
  induction l with
  | nil => simp
  | cons x xs ih =>
    rw [List.filter_cons, List.filter_cons, List.filter_cons]
    by_cases h1 : g x = d
    · have h2 : g x ∉ ds := h1 ▸ hd
      rw [if_pos (by simpa using h1), if_neg (by simpa using h2),
        if_pos (by simp [h1])]
      rw [List.cons_append]
      exact ih.cons x
    · by_cases h2 : g x ∈ ds
      · rw [if_neg (by simpa using h1), if_pos (by simpa using h2),
          if_pos (by simp [List.mem_cons_of_mem _ h2])]
        exact List.perm_middle.trans (ih.cons x)
      · have h3 : g x ∉ d :: ds := by
          intro hc
          rcases List.mem_cons.mp hc with hc1 | hc1
          · exact h1 hc1
          · exact h2 hc1
        rw [if_neg (by simpa using h1), if_neg (by simpa using h2),
          if_neg (by simpa using h3)]
        exact ih

theorem join_day_filters {α : Type} (g : α → ℤ) (l : List α) (days : List ℤ)
    (hnd : days.Nodup) :
    ((days.map (fun d => l.filter (fun x => decide (g x = d)))).flatten).Perm
      (l.filter (fun x => decide (g x ∈ days))) := by
  induction days with
  | nil => simp
  | cons d ds ih =>
    rw [List.nodup_cons] at hnd
    rw [List.map_cons, List.flatten_cons]
    exact (List.Perm.append_left _ (ih hnd.2)).trans
      (filter_day_split g l d ds hnd.1)

theorem fragmentsOf_content_join (dayF : DataRow → ℤ) (days : List ℤ) (P : Product) :
    ((GenericProduct.fragmentsOf dayF days P).map
        (fun f => f.data.map rowContent)).flatten =
      (days.map (fun d => (dayRows dayF P d).map rowContent)).flatten := by
  unfold GenericProduct.fragmentsOf
  induction days with
  | nil => rfl
  | cons d ds ih =>
    cases hf : GenericProduct.dayFragment dayF P d with
    | none =>
      rw [List.filterMap_cons_none hf, List.map_cons, List.flatten_cons,
        dayFragment_none_iff.mp hf]
      simpa using ih
    | some f =>
      rw [List.filterMap_cons_some hf, List.map_cons, List.map_cons,
        List.flatten_cons, List.flatten_cons, ih]
      congr 1
      obtain ⟨hd, _, _, _, _⟩ := dayFragment_some_eq hf
      rw [hd, List.map_map]
      rfl

theorem fragmentsOf_partition (dayF : DataRow → ℤ) (days : List ℤ) (P : Product)
    (hnd : days.Nodup) (hcov : ∀ r ∈ P.data, dayF r ∈ days) :
    (((GenericProduct.fragmentsOf dayF days P).map
        (fun f => f.data.map rowContent)).flatten).Perm (P.data.map rowContent) := by
  rw [fragmentsOf_content_join]
  have h2 := join_day_filters dayF P.data days hnd
  have h3 : P.data.filter (fun x => decide (dayF x ∈ days)) = P.data := by
    rw [List.filter_eq_self]
    intro r hr
    simpa using hcov r hr
  rw [h3] at h2
  have h4 : ((days.map (fun d => dayRows dayF P d)).flatten).map rowContent =
      (days.map (fun d => (dayRows dayF P d).map rowContent)).flatten := by
    rw [List.map_flatten, List.map_map]
    rfl
  rw [← h4]
  exact h2.map rowContent

/-- C8: every Data row of a (time-sorted, non-empty) product appears in
exactly one emitted fragment: the disjoint union of the fragments' Data
rows (identified by their content — time, duration, value — since the
foreign key is renumbered) is a permutation of the product's Data
rows. -/
theorem C8_split_partition (sceday utcday : ℚ → ℤ) (P : Product)
    (hmono : ∀ a b : ℚ, a ≤ b → utcday a ≤ utcday b)
    (hne : P.data ≠ [])
    (hsorted : P.data.Pairwise (fun a b => a.time ≤ b.time))
    (hdur : ∀ r ∈ P.data, 0 ≤ r.timedel) :
    ∃ frags, GenericProduct.split_to_files sceday utcday P = some frags ∧
      ((frags.map (fun f => f.data.map rowContent)).flatten).Perm
        (P.data.map rowContent) := by
  cases hl : P.level
  case L0 =>
    refine ⟨_, by rw [GenericProduct.split_to_files, hl], ?_⟩
    refine fragmentsOf_partition _ _ _ (npUniqueInt_nodup _) ?_
    intro r hr
    exact npUniqueInt_mem.mpr (List.mem_map_of_mem _ hr)
  all_goals
    rcases hdata : P.data with _ | ⟨h0, rest⟩
    · exact absurd hdata hne
    · have hst : GenericProduct.scet_timerange P =
          some (h0.time - h0.timedel / 2,
            ((h0 :: rest).getLast (by simp)).time +
              ((h0 :: rest).getLast (by simp)).timedel / 2) := by
        unfold GenericProduct.scet_timerange
        rw [hdata]
        rw [List.getLast?_eq_getLast _ (by simp)]
        rfl
      refine ⟨_, by rw [GenericProduct.split_to_files, hl, hst], ?_⟩
      have hcov : ∀ r ∈ P.data, utcday r.time ∈
          intRange (utcday (h0.time - h0.timedel / 2))
            (utcday (((h0 :: rest).getLast (by simp)).time +
              ((h0 :: rest).getLast (by simp)).timedel / 2)) := by
        intro r hr
        rw [mem_intRange]
        constructor
        · refine hmono _ _ ?_
          have hsorted2 : (h0 :: rest).Pairwise (fun a b => a.time ≤ b.time) := by
            rw [← hdata]; exact hsorted
          have hr2 : r ∈ h0 :: rest := by rw [← hdata]; exact hr
          have hh : h0.time ≤ r.time := pairwise_head_le hsorted2 r hr2
          have hd0 : 0 ≤ h0.timedel :=
            hdur h0 (by rw [hdata]; exact List.mem_cons_self _ _)
          linarith
        · refine hmono _ _ ?_
          have hsorted2 : (h0 :: rest).Pairwise (fun a b => a.time ≤ b.time) := by
            rw [← hdata]; exact hsorted
          have hr2 : r ∈ h0 :: rest := by rw [← hdata]; exact hr
          have hh : r.time ≤ ((h0 :: rest).getLast (by simp)).time :=
            pairwise_le_getLast hsorted2 r hr2
          have hdl : 0 ≤ ((h0 :: rest).getLast (by simp)).timedel := by
            refine hdur _ ?_
            rw [hdata]
            exact List.getLast_mem _
          linarith
      have hpart := fragmentsOf_partition (fun r => utcday r.time) _ P
        (intRange_nodup _ _) hcov
      rw [hdata] at hpart
      exact hpart

theorem C8_split_partition_witness :
    ∃ frags, GenericProduct.split_to_files scedayModel utcdayModel prodC8W =
        some frags ∧
      ((frags.map (fun f => f.data.map rowContent)).flatten).Perm
        (prodC8W.data.map rowContent) :=
  C8_split_partition scedayModel utcdayModel prodC8W utcdayModel_mono
    (by decide) (by decide) (by decide)

theorem length_filterMap_isSome {α β : Type} (f : α → Option β) (l : List α) :
    (l.filterMap f).length = (l.filter (fun x => (f x).isSome)).length := by
  induction l with
  | nil => rfl
  | cons x xs ih =>
    cases hf : f x with
    | none =>
      rw [List.filterMap_cons_none hf, List.filter_cons, ih]
      simp [hf]
    | some b =>
      rw [List.filterMap_cons_some hf, List.filter_cons]
      simp only [hf, Option.isSome_some, if_pos]
      rw [List.length_cons, List.length_cons, ih]

theorem dayFragment_isSome_iff {dayF : DataRow → ℤ} {P : Product} {d : ℤ} :
    (GenericProduct.dayFragment dayF P d).isSome = true ↔ dayRows dayF P d ≠ [] := by
  constructor
  · intro h hc
    rw [← dayFragment_none_iff] at hc
    rw [hc] at h
    simp at h
  · intro h
    cases hdf : GenericProduct.dayFragment dayF P d with
    | none => exact absurd (dayFragment_none_iff.mp hdf) h
    | some f => rfl

theorem fragmentsOf_data_ne (dayF : DataRow → ℤ) (days : List ℤ) (P : Product) :
    ∀ f ∈ GenericProduct.fragmentsOf dayF days P, f.data ≠ [] := by
  intro f hf
  rcases List.mem_filterMap.mp hf with ⟨d, _, hdf⟩
  obtain ⟨hdata, _, _, _, hne2⟩ := dayFragment_some_eq hdf
  rw [hdata]
  intro hc
  rw [List.map_eq_nil_iff] at hc
  exact hne2 hc

theorem mem_dayRows_iff {dayF : DataRow → ℤ} {P : Product} {d : ℤ} :
    dayRows dayF P d ≠ [] ↔ d ∈ P.data.map dayF := by
  unfold dayRows
  constructor
  · intro h
    rcases hdr : P.data.filter (fun r => decide (dayF r = d)) with _ | ⟨r, rs⟩
    · exact absurd hdr h
    · have hr : r ∈ P.data.filter (fun r => decide (dayF r = d)) := by
        rw [hdr]; exact List.mem_cons_self _ _
      rw [List.mem_filter] at hr
      have hd : dayF r = d := by simpa using hr.2
      exact hd ▸ List.mem_map_of_mem dayF hr.1
  · intro h hc
    rcases List.mem_map.mp h with ⟨r, hr, hd⟩
    have : r ∈ P.data.filter (fun r => decide (dayF r = d)) :=
      List.mem_filter.mpr ⟨hr, by simpa using hd⟩
    rw [hc] at this
    simp at this

/-- C7: the split engine emits no empty fragment, and emits exactly one
fragment per distinct day value carried by a Data row (so a day with no
rows yields no fragment). -/
theorem C7_no_empty_fragment (sceday utcday : ℚ → ℤ) (P : Product)
    (hmono : ∀ a b : ℚ, a ≤ b → utcday a ≤ utcday b)
    (hne : P.data ≠ [])
    (hsorted : P.data.Pairwise (fun a b => a.time ≤ b.time))
    (hdur : ∀ r ∈ P.data, 0 ≤ r.timedel) :
    ∃ frags, GenericProduct.split_to_files sceday utcday P = some frags ∧
      (∀ f ∈ frags, f.data ≠ []) ∧
      frags.length = (npUniqueInt (P.data.map (fun r =>
        match P.level with
        | Level.L0 => sceday r.time
        | _ => utcday r.time))).length := by
  cases hl : P.level
  case L0 =>
    refine ⟨_, by rw [GenericProduct.split_to_files, hl], fragmentsOf_data_ne _ _ _, ?_⟩
    unfold GenericProduct.fragmentsOf
    rw [length_filterMap_isSome]
    have hall : (npUniqueInt (P.data.map (fun r => sceday r.time))).filter
        (fun d => (GenericProduct.dayFragment (fun r => sceday r.time) P d).isSome) =
        npUniqueInt (P.data.map (fun r => sceday r.time)) := by
      rw [List.filter_eq_self]
      intro d hd
      rw [dayFragment_isSome_iff, mem_dayRows_iff]
      exact npUniqueInt_mem.mp hd
    rw [hall]
  all_goals
    rcases hdata : P.data with _ | ⟨h0, rest⟩
    · exact absurd hdata hne
    · have hst : GenericProduct.scet_timerange P =
          some (h0.time - h0.timedel / 2,
            ((h0 :: rest).getLast (by simp)).time +
              ((h0 :: rest).getLast (by simp)).timedel / 2) := by
        unfold GenericProduct.scet_timerange
        rw [hdata]
        rw [List.getLast?_eq_getLast _ (by simp)]
        rfl
      refine ⟨_, by rw [GenericProduct.split_to_files, hl, hst],
        fragmentsOf_data_ne _ _ _, ?_⟩
      unfold GenericProduct.fragmentsOf
      rw [length_filterMap_isSome]
      have hcong : (intRange (utcday (h0.time - h0.timedel / 2))
            (utcday (((h0 :: rest).getLast (by simp)).time +
              ((h0 :: rest).getLast (by simp)).timedel / 2))).filter
          (fun d => (GenericProduct.dayFragment (fun r => utcday r.time) P d).isSome) =
          (intRange (utcday (h0.time - h0.timedel / 2))
            (utcday (((h0 :: rest).getLast (by simp)).time +
              ((h0 :: rest).getLast (by simp)).timedel / 2))).filter
          (fun d => decide (d ∈ npUniqueInt (P.data.map (fun r => utcday r.time)))) := by
        apply List.filter_congr
        intro d _
        rcases Decidable.em (d ∈ npUniqueInt (P.data.map (fun r => utcday r.time)))
          with hmem | hmem
        · have h2 : (GenericProduct.dayFragment
              (fun r => utcday r.time) P d).isSome = true := by
            rw [dayFragment_isSome_iff, mem_dayRows_iff]
            simpa using npUniqueInt_mem.mp hmem
          rw [h2]
          simp [hmem]
        · have h2 : ¬ ((GenericProduct.dayFragment
              (fun r => utcday r.time) P d).isSome = true) := by
            rw [dayFragment_isSome_iff, mem_dayRows_iff]
            intro hc
            exact hmem (npUniqueInt_mem.mpr hc)
          simp only [Bool.not_eq_true] at h2
          rw [h2]
          simp [hmem]
      rw [hcong]
      have hfil := filter_mem_of_sorted
        (intRange_sorted (utcday (h0.time - h0.timedel / 2))
          (utcday (((h0 :: rest).getLast (by simp)).time +
            ((h0 :: rest).getLast (by simp)).timedel / 2)))
        (npUniqueInt_sorted (P.data.map (fun r => utcday r.time)))
        ?_
      · rw [hfil, hdata]
      · intro x hx
        rcases List.mem_map.mp (npUniqueInt_mem.mp hx) with ⟨r, hr, hxr⟩
        rw [mem_intRange]
        have hsorted2 : (h0 :: rest).Pairwise (fun a b => a.time ≤ b.time) := by
          rw [← hdata]; exact hsorted
        have hr2 : r ∈ h0 :: rest := by rw [← hdata]; exact hr
        constructor
        · rw [← hxr]
          refine hmono _ _ ?_
          have hh : h0.time ≤ r.time := pairwise_head_le hsorted2 r hr2
          have hd0 : 0 ≤ h0.timedel :=
            hdur h0 (by rw [hdata]; exact List.mem_cons_self _ _)
          linarith
        · rw [← hxr]
          refine hmono _ _ ?_
          have hh : r.time ≤ ((h0 :: rest).getLast (by simp)).time :=
            pairwise_le_getLast hsorted2 r hr2
          have hdl : 0 ≤ ((h0 :: rest).getLast (by simp)).timedel := by
            refine hdur _ ?_
            rw [hdata]
            exact List.getLast_mem _
          linarith

theorem C7_no_empty_fragment_witness :
    ∃ frags, GenericProduct.split_to_files scedayModel utcdayModel prodC7W =
        some frags ∧ (∀ f ∈ frags, f.data ≠ []) ∧ frags.length = 3 := by
  obtain ⟨frags, h1, h2, h3⟩ := C7_no_empty_fragment scedayModel utcdayModel prodC7W
    utcdayModel_mono (by decide) (by decide) (by decide)
  exact ⟨frags, h1, h2, h3.trans (by decide)⟩

/-- C2 counterexample: `prodC2cx` has time-sorted Data, dense Control
indexing and full referential integrity, yet its first emitted fragment
has `control.index = [0, 2]` — not the contiguous sequence `0..K-1` for
its `K = 2` Control rows — because `split_to_files` only subtracts
`control_index_min` and the day references the gap set `{0, 2}`. -/
theorem C2_counterexample :
    prodC2cx.data.Pairwise (fun a b => a.time ≤ b.time) ∧
    prodC2cx.control.map (fun c => c.index) =
      intRange 0 ((prodC2cx.control.length : ℤ) - 1) ∧
    (∀ r ∈ prodC2cx.data, r.control_index ∈
      prodC2cx.control.map (fun c => c.index)) ∧
    ((GenericProduct.split_to_files scedayModel utcdayModel prodC2cx).getD
        []).map (fun f => f.control.map (fun c => c.index)) = [[0, 2], [0]] ∧
    ¬ ([0, 2] : List ℤ) = intRange 0 1 := by
  refine ⟨by decide, by decide, by decide, by decide, by decide⟩

/-- C2 amended: for an L0 product with dense Control indexing and
referential integrity, and under the additional hypothesis that each
emitted day's referenced Control indices form a contiguous block, every
fragment emitted by `split_to_files` has `control.index = 0..K-1` after
the `control_index_min` subtraction (without the contiguity hypothesis
the fragment's indices still start at 0 and increase strictly, but may
have gaps, see the counterexample). -/
theorem C2_dense_fragment_numbering (sceday utcday : ℚ → ℤ) (P : Product)
    (hlevel : P.level = Level.L0)
    (hdense : P.control.map (fun c => c.index) =
      intRange 0 ((P.control.length : ℤ) - 1))
    (href : ∀ r ∈ P.data, r.control_index ∈ P.control.map (fun c => c.index))
    (hcontig : ∀ d ∈ npUniqueInt (P.data.map (fun r => sceday r.time)),
      dayRefs (fun r => sceday r.time) P d =
        intRange (listMin (dayRefs (fun r => sceday r.time) P d))
          (listMin (dayRefs (fun r => sceday r.time) P d) +
            (dayRefs (fun r => sceday r.time) P d).length - 1)) :
    ∃ frags, GenericProduct.split_to_files sceday utcday P = some frags ∧
      ∀ f ∈ frags, f.control.map (fun c => c.index) =
        intRange 0 ((f.control.length : ℤ) - 1) := by
  refine ⟨_, by rw [GenericProduct.split_to_files, hlevel], ?_⟩
  intro f hf
  rcases List.mem_filterMap.mp hf with ⟨d, hd, hdf⟩
  obtain ⟨_, hctrl, _, _, hneD⟩ := dayFragment_some_eq hdf
  have hsubset : ∀ x ∈ dayRefs (fun r => sceday r.time) P d,
      x ∈ P.control.map (fun c => c.index) := by
    intro x hx
    unfold dayRefs at hx
    rcases List.mem_map.mp (npUniqueInt_mem.mp hx) with ⟨r, hr, hxr⟩
    unfold dayRows at hr
    rw [List.mem_filter] at hr
    exact hxr ▸ href r hr.1
  have hmapidx : f.control.map (fun c => c.index) =
      (dayRefs (fun r => sceday r.time) P d).map
        (fun x => x - listMin (dayRefs (fun r => sceday r.time) P d)) := by
    rw [hctrl, map_index_update, map_filter_comm (fun c => c.index)
      (fun x => decide (x ∈ dayRefs (fun r => sceday r.time) P d)) P.control]
    congr 1
    rw [hdense]
    rw [hdense] at hsubset
    refine filter_mem_of_sorted (intRange_sorted 0 _) ?_ hsubset
    exact npUniqueInt_sorted _
  have hlen : f.control.length = (dayRefs (fun r => sceday r.time) P d).length := by
    have h1 := congrArg List.length hmapidx
    rw [List.length_map, List.length_map] at h1
    exact h1
  have hco := hcontig d hd
  have hstep := congrArg
    (List.map (fun x => x - listMin (dayRefs (fun r => sceday r.time) P d))) hco
  rw [hmapidx, hlen]
  exact hstep.trans (intRange_shift_to_zero _ _)

theorem C2_dense_fragment_numbering_witness :
    ∃ frags, GenericProduct.split_to_files scedayModel utcdayModel prodC2W =
        some frags ∧
      ∀ f ∈ frags, f.control.map (fun c => c.index) =
        intRange 0 ((f.control.length : ℤ) - 1) :=
  C2_dense_fragment_numbering scedayModel utcdayModel prodC2W rfl
    (by decide) (by decide) (by decide)

theorem trCoversB_none (x : SCETimeRange) : trCoversB x none = true := by
  cases x <;> rfl

theorem trCoversB_refl (x : SCETimeRange) : trCoversB x x = true := by
  cases x with
  | none => rfl
  | some p => simp [trCoversB]

theorem trCoversB_trans (a b c : SCETimeRange) (h1 : trCoversB a b = true)
    (h2 : trCoversB b c = true) : trCoversB a c = true := by
  cases c with
  | none => exact trCoversB_none a
  | some pc =>
    cases b with
    | none => simp [trCoversB] at h2
    | some pb =>
      cases a with
      | none => simp [trCoversB] at h1
      | some pa =>
        simp only [trCoversB, decide_eq_true_eq] at h1 h2 ⊢
        exact ⟨le_trans h1.1 h2.1, le_trans h2.2 h1.2⟩

theorem trCoversB_expand_left (x y : SCETimeRange) :
    trCoversB (trExpand x y) x = true := by
  cases x with
  | none => exact trCoversB_none _
  | some p =>
    cases y with
    | none => exact trCoversB_refl _
    | some q =>
      simp only [trExpand, trCoversB, decide_eq_true_eq]
      exact ⟨min_le_left _ _, le_max_left _ _⟩

theorem trCoversB_expand_right (x y : SCETimeRange) :
    trCoversB (trExpand x y) y = true := by
  cases y with
  | none => exact trCoversB_none _
  | some q =>
    cases x with
    | none => exact trCoversB_refl _
    | some p =>
      simp only [trExpand, trCoversB, decide_eq_true_eq]
      exact ⟨min_le_right _ _, le_max_right _ _⟩

theorem idbGet_idbSet_self (m : IdbMap) (k : ℕ) (r : SCETimeRange) :
    idbGet (idbSet m k r) k = r := by
  unfold idbSet
  by_cases h : (m.find? (fun p => p.1 == k)).isSome
  · rw [if_pos h]
    induction m with
    | nil => simp at h
    | cons q ps ih =>
      by_cases hpk : (q.1 == k) = true
      · rw [List.map_cons, if_pos hpk]
        unfold idbGet
        have hstep : List.find? (fun p => p.1 == k)
            (((k : ℕ), r) :: ps.map (fun p => if p.1 == k then (k, r) else p)) =
            some (k, r) := List.find?_cons_of_pos _ (by simp)
        rw [hstep]
      · rw [List.map_cons, if_neg hpk]
        unfold idbGet
        have hstep : List.find? (fun p => p.1 == k)
            (q :: ps.map (fun p => if p.1 == k then (k, r) else p)) =
            List.find? (fun p => p.1 == k)
              (ps.map (fun p => if p.1 == k then (k, r) else p)) :=
          List.find?_cons_of_neg _ hpk
        rw [hstep]
        have h2 : (ps.find? (fun p => p.1 == k)).isSome := by
          have hstep2 : List.find? (fun p => p.1 == k) (q :: ps) =
              List.find? (fun p => p.1 == k) ps := List.find?_cons_of_neg _ hpk
          rw [hstep2] at h
          exact h
        have h3 := ih h2
        unfold idbGet at h3
        exact h3
  · rw [if_neg h]
    unfold idbGet
    rw [List.find?_append]
    rw [Option.not_isSome_iff_eq_none] at h
    rw [h]
    simp

theorem idbGet_idbSet_ne (m : IdbMap) (k k' : ℕ) (r : SCETimeRange)
    (h : k' ≠ k) : idbGet (idbSet m k r) k' = idbGet m k' := by
  have hkk : ((k : ℕ) == k') = false := by
    simp only [beq_eq_false_iff_ne, ne_eq]
    exact fun hc => h hc.symm
  unfold idbSet
  by_cases hf : (m.find? (fun p => p.1 == k)).isSome
  · rw [if_pos hf]
    unfold idbGet
    clear hf
    induction m with
    | nil => rfl
    | cons q ps ih =>
      rw [List.map_cons]
      by_cases hpk : (q.1 == k) = true
      · rw [if_pos hpk]
        have hpk2 : (q.1 == k') = false := by
          have hp : q.1 = k := by simpa using hpk
          rw [hp]
          exact hkk
        have hs1 : List.find? (fun p => p.1 == k')
            (((k : ℕ), r) :: ps.map (fun p => if p.1 == k then (k, r) else p)) =
            List.find? (fun p => p.1 == k')
              (ps.map (fun p => if p.1 == k then (k, r) else p)) :=
          List.find?_cons_of_neg _ (by simp [hkk])
        have hs2 : List.find? (fun p => p.1 == k') (q :: ps) =
            List.find? (fun p => p.1 == k') ps :=
          List.find?_cons_of_neg _ (by simp [hpk2])
        rw [hs1, hs2]
        exact ih
      · rw [if_neg hpk]
        by_cases hpk3 : (q.1 == k') = true
        · have hs1 : List.find? (fun p => p.1 == k')
              (q :: ps.map (fun p => if p.1 == k then (k, r) else p)) =
              some q := List.find?_cons_of_pos _ hpk3
          have hs2 : List.find? (fun p => p.1 == k') (q :: ps) = some q :=
            List.find?_cons_of_pos _ hpk3
          rw [hs1, hs2]
        · have hs1 : List.find? (fun p => p.1 == k')
              (q :: ps.map (fun p => if p.1 == k then (k, r) else p)) =
              List.find? (fun p => p.1 == k')
                (ps.map (fun p => if p.1 == k then (k, r) else p)) :=
            List.find?_cons_of_neg _ hpk3
          have hs2 : List.find? (fun p => p.1 == k') (q :: ps) =
              List.find? (fun p => p.1 == k') ps :=
            List.find?_cons_of_neg _ hpk3
          rw [hs1, hs2]
          exact ih
  · rw [if_neg hf]
    unfold idbGet
    rw [List.find?_append]
    have hlast : ([((k : ℕ), r)].find? (fun p => p.1 == k')) = none := by
      rw [List.find?_singleton]
      simp [hkk]
    rw [hlast]
    cases m.find? (fun p => p.1 == k') <;> rfl

theorem combineIdb_covers_acc (otherM : IdbMap) :
    ∀ (acc : IdbMap) (k : ℕ),
      trCoversB (idbGet (GenericProduct.combineIdb acc otherM) k)
        (idbGet acc k) = true := by
  induction otherM with
  | nil =>
    intro acc k
    exact trCoversB_refl _
  | cons kr rest ih =>
    intro acc k
    unfold GenericProduct.combineIdb at ih ⊢
    rw [List.foldl_cons]
    refine trCoversB_trans _ _ _ (ih _ k) ?_
    by_cases hk : k = kr.1
    · subst hk
      rw [idbGet_idbSet_self]
      exact trCoversB_expand_left _ _
    · rw [idbGet_idbSet_ne _ _ _ _ hk]
      exact trCoversB_refl _

theorem combineIdb_covers_entries (otherM : IdbMap) :
    ∀ (acc : IdbMap), ∀ p ∈ otherM,
      trCoversB (idbGet (GenericProduct.combineIdb acc otherM) p.1) p.2 = true := by
  induction otherM with
  | nil =>
    intro acc p hp
    simp at hp
  | cons kr rest ih =>
    intro acc p hp
    unfold GenericProduct.combineIdb at ih ⊢
    rw [List.foldl_cons]
    rcases List.mem_cons.mp hp with h1 | h1
    · subst h1
      have hcov := combineIdb_covers_acc rest
        (idbSet acc p.1 (trExpand (idbGet acc p.1) p.2)) p.1
      unfold GenericProduct.combineIdb at hcov
      refine trCoversB_trans _ _ _ hcov ?_
      rw [idbGet_idbSet_self]
      exact trCoversB_expand_right _ _
    · exact ih _ p h1

/-- C9: after `combine`, for every key present in either operand's
`idb_versions` map the result's range covers (is a superset of) that
operand's range for the key: `self`'s ranges are deep-copied and each of
`other`'s entries only ever expands the corresponding range. -/
theorem C9_idb_coverage (A B : Product)
    (hinst : isinstanceOf B.cls A.cls = true)
    (hA : A.data ≠ []) (hB : B.data ≠ []) :
    ∃ res, GenericProduct.add A B = Except.ok res ∧
      ∀ k, trCoversB (idbGet res.idb_versions k) (idbGet A.idb_versions k) = true ∧
        trCoversB (idbGet res.idb_versions k) (idbGet B.idb_versions k) = true := by
  rcases hsd : A.data with _ | ⟨s0, srest⟩
  · exact absurd hsd hA
  rcases hod : B.data with _ | ⟨o0, orest⟩
  · exact absurd hod hB
  refine ⟨GenericProduct.combineOk A B s0 o0, ?_, ?_⟩
  · unfold GenericProduct.add
    rw [hinst, hsd, hod]
    rfl
  · intro k
    have hidb : (GenericProduct.combineOk A B s0 o0).idb_versions =
        GenericProduct.combineIdb A.idb_versions B.idb_versions := rfl
    rw [hidb]
    constructor
    · exact combineIdb_covers_acc B.idb_versions A.idb_versions k
    · cases hfind : B.idb_versions.find? (fun p => p.1 == k) with
      | none =>
        have hBk : idbGet B.idb_versions k = none := by
          unfold idbGet
          rw [hfind]
        rw [hBk]
        exact trCoversB_none _
      | some p =>
        have hmem : p ∈ B.idb_versions := List.mem_of_find?_eq_some hfind
        have hk : p.1 = k := by simpa using List.find?_some hfind
        have hBk : idbGet B.idb_versions k = p.2 := by
          unfold idbGet
          rw [hfind]
        rw [hBk, ← hk]
        exact combineIdb_covers_entries B.idb_versions A.idb_versions p hmem

theorem C9_idb_coverage_witness :
    ∃ res, GenericProduct.add prodC9A prodC9B = Except.ok res ∧
      ∀ k, trCoversB (idbGet res.idb_versions k)
          (idbGet prodC9A.idb_versions k) = true ∧
        trCoversB (idbGet res.idb_versions k)
          (idbGet prodC9B.idb_versions k) = true :=
  C9_idb_coverage prodC9A prodC9B (by decide) (by decide) (by decide)

/-! ## Properties of the `newids` dict of `__add__` -/

theorem find?_append_isSome {α : Type} (p : α → Bool) (l e : List α)
    (h : (l.find? p).isSome) : (l ++ e).find? p = l.find? p := by
  rw [List.find?_append]
  cases hf : l.find? p with
  | none => rw [hf] at h; simp at h
  | some a => rfl

theorem buildNewIds_append (ts : List Tag) :
    ∀ m, ∃ e, GenericProduct.buildNewIds ts m = m ++ e ∧ ∀ p ∈ e, p.1 ∈ ts := by
  induction ts with
  | nil =>
    intro m
    exact ⟨[], by simp [GenericProduct.buildNewIds], by intro p hp; simp at hp⟩
  | cons t rest ih =>
    intro m
    unfold GenericProduct.buildNewIds
    by_cases h : (m.find? (fun p => p.1 == t)).isSome
    · rw [if_pos h]
      obtain ⟨e, he, hsub⟩ := ih m
      exact ⟨e, he, fun p hp => List.mem_cons_of_mem _ (hsub p hp)⟩
    · rw [if_neg h]
      obtain ⟨e, he, hsub⟩ := ih (m ++ [(t, m.length)])
      refine ⟨(t, m.length) :: e, ?_, ?_⟩
      · rw [he, List.append_assoc]
        rfl
      · intro p hp
        rcases List.mem_cons.mp hp with h1 | h1
        · rw [h1]
          exact List.mem_cons_self _ _
        · exact List.mem_cons_of_mem _ (hsub p h1)

theorem buildNewIds_snd (ts : List Tag) :
    ∀ m, m.map Prod.snd = List.range m.length →
      (GenericProduct.buildNewIds ts m).map Prod.snd =
        List.range (GenericProduct.buildNewIds ts m).length := by
  induction ts with
  | nil => intro m h; exact h
  | cons t rest ih =>
    intro m h
    unfold GenericProduct.buildNewIds
    by_cases hf : (m.find? (fun p => p.1 == t)).isSome
    · rw [if_pos hf]
      exact ih m h
    · rw [if_neg hf]
      refine ih _ ?_
      rw [List.map_append, List.length_append, h]
      simp [List.range_succ]

theorem buildNewIds_keys_nodup (ts : List Tag) :
    ∀ m, (m.map Prod.fst).Nodup →
      ((GenericProduct.buildNewIds ts m).map Prod.fst).Nodup := by
  induction ts with
  | nil => intro m h; exact h
  | cons t rest ih =>
    intro m h
    unfold GenericProduct.buildNewIds
    by_cases hf : (m.find? (fun p => p.1 == t)).isSome
    · rw [if_pos hf]
      exact ih m h
    · rw [if_neg hf]
      refine ih _ ?_
      rw [List.map_append]
      rw [Option.not_isSome_iff_eq_none, List.find?_eq_none] at hf
      simp only [List.nodup_append, List.map_cons, List.map_nil]
      refine ⟨h, List.nodup_singleton _, ?_⟩
      intro x hx
      simp only [List.mem_singleton]
      intro hc
      rcases List.mem_map.mp hx with ⟨q, hq, hqx⟩
      exact hf q hq (by rw [← hqx] at hc; simpa using hc)

theorem buildNewIds_covers (ts : List Tag) :
    ∀ m, ∀ t ∈ ts,
      ((GenericProduct.buildNewIds ts m).find? (fun p => p.1 == t)).isSome := by
  induction ts with
  | nil => intro m t ht; simp at ht
  | cons t' rest ih =>
    intro m t ht
    unfold GenericProduct.buildNewIds
    by_cases hf : (m.find? (fun p => p.1 == t')).isSome
    · rw [if_pos hf]
      rcases List.mem_cons.mp ht with h1 | h1
      · subst h1
        obtain ⟨e, he, _⟩ := buildNewIds_append rest m
        rw [he, find?_append_isSome _ _ _ hf]
        exact hf
      · exact ih m t h1
    · rw [if_neg hf]
      rcases List.mem_cons.mp ht with h1 | h1
      · subst h1
        have hm1 : ((m ++ [(t, m.length)]).find? (fun p => p.1 == t)).isSome := by
          rw [List.find?_append]
          rw [Option.not_isSome_iff_eq_none] at hf
          rw [hf]
          simp
        obtain ⟨e, he, _⟩ := buildNewIds_append rest (m ++ [(t, m.length)])
        rw [he, find?_append_isSome _ _ _ hm1]
        exact hm1
      · exact ih _ t h1

theorem idOf_spec {M : List (Tag × ℕ)} {t : Tag}
    (h : (M.find? (fun p => p.1 == t)).isSome) : (t, GenericProduct.idOf M t) ∈ M := by
  cases hf : M.find? (fun p => p.1 == t) with
  | none => rw [hf] at h; simp at h
  | some q =>
    have hq : q ∈ M := List.mem_of_find?_eq_some hf
    have hqt : q.1 = t := by simpa using List.find?_some hf
    have hid : GenericProduct.idOf M t = q.2 := by
      unfold GenericProduct.idOf
      rw [hf]
    rw [hid, ← hqt]
    exact hq

theorem snd_lt_of_mem {M : List (Tag × ℕ)} {p : Tag × ℕ}
    (hsnd : M.map Prod.snd = List.range M.length) (hp : p ∈ M) :
    p.2 < M.length := by
  have h1 : p.2 ∈ M.map Prod.snd := List.mem_map_of_mem _ hp
  rw [hsnd] at h1
  exact List.mem_range.mp h1

theorem find?_eq_of_keys_nodup {M : List (Tag × ℕ)} {p : Tag × ℕ}
    (hnd : (M.map Prod.fst).Nodup) (hp : p ∈ M) :
    M.find? (fun q => q.1 == p.1) = some p := by
  induction M with
  | nil => simp at hp
  | cons q M' ih =>
    rw [List.map_cons, List.nodup_cons] at hnd
    rcases List.mem_cons.mp hp with h1 | h1
    · subst h1
      exact List.find?_cons_of_pos _ (by simp)
    · have hqp : (q.1 == p.1) = false := by
        simp only [beq_eq_false_iff_ne, ne_eq]
        intro hc
        exact hnd.1 (hc ▸ List.mem_map_of_mem Prod.fst h1)
      have hstep : List.find? (fun x => x.1 == p.1) (q :: M') =
          List.find? (fun x => x.1 == p.1) M' :=
        List.find?_cons_of_neg _ (by simp [hqp])
      rw [hstep]
      exact ih hnd.2 h1

theorem renumberData_spec (l : List (DataRow × Tag)) :
    ∀ m, (GenericProduct.renumberData l m).2 =
        GenericProduct.buildNewIds (l.map Prod.snd) m ∧
      (GenericProduct.renumberData l m).1 = l.map (fun rt =>
        { rt.1 with control_index := (GenericProduct.idOf
          (GenericProduct.buildNewIds (l.map Prod.snd) m) rt.2 : ℤ) }) := by
  induction l with
  | nil => intro m; exact ⟨rfl, rfl⟩
  | cons rt rest ih =>
    intro m
    obtain ⟨r, t⟩ := rt
    unfold GenericProduct.renumberData
    rw [List.map_cons]
    unfold GenericProduct.buildNewIds
    by_cases hf : (m.find? (fun p => p.1 == t)).isSome
    · rw [if_pos hf]
      obtain ⟨ih1, ih2⟩ := ih m
      refine ⟨ih1, ?_⟩
      rw [List.map_cons]
      simp only [if_pos hf]
      rw [ih2]
      have hstable : GenericProduct.idOf m t = GenericProduct.idOf
          (GenericProduct.buildNewIds (rest.map Prod.snd) m) t := by
        obtain ⟨e, he, _⟩ := buildNewIds_append (rest.map Prod.snd) m
        unfold GenericProduct.idOf
        rw [he, find?_append_isSome _ _ _ hf]
      rw [hstable]
    · rw [if_neg hf]
      obtain ⟨ih1, ih2⟩ := ih (m ++ [(t, m.length)])
      refine ⟨ih1, ?_⟩
      rw [List.map_cons]
      simp only [if_neg hf]
      rw [ih2]
      have hm1 : ((m ++ [(t, m.length)]).find? (fun p => p.1 == t)).isSome := by
        rw [List.find?_append]
        rw [Option.not_isSome_iff_eq_none] at hf
        rw [hf]
        simp
      have hstable : GenericProduct.idOf (m ++ [(t, m.length)]) t =
          GenericProduct.idOf (GenericProduct.buildNewIds
            (rest.map Prod.snd) (m ++ [(t, m.length)])) t := by
        obtain ⟨e, he, _⟩ := buildNewIds_append (rest.map Prod.snd) _
        unfold GenericProduct.idOf
        rw [he, find?_append_isSome _ _ _ hm1]
      rw [hstable]

theorem count_filterMap_eq (l : List Tag) (f : Tag → Option ℕ) (j : ℕ) :
    (l.filterMap f).count j = (l.filter (fun t => f t == some j)).length := by
  induction l with
  | nil => rfl
  | cons t ts ih =>
    cases hf : f t with
    | none =>
      rw [List.filterMap_cons_none hf, List.filter_cons]
      simp only [hf]
      rw [ih]
      rfl
    | some b =>
      rw [List.filterMap_cons_some hf, List.filter_cons]
      simp only [hf]
      by_cases hb : b = j
      · subst hb
        rw [List.count_cons_self, if_pos (by simp), List.length_cons, ih]
      · rw [List.count_cons_of_ne (fun hc => hb hc.symm)]
        have hbj : ((some b == some j) : Bool) = false := by
          simpa using hb
        rw [hbj]
        simp only [Bool.false_eq_true, if_neg, not_false_iff]
        exact ih

theorem mem_sortDedup {α : Type} (key : α → ℤ) (l : List α) (x : α)
    (h : x ∈ sortByKey key (dedupKeys key l)) : x ∈ l :=
  (dedupKeysAux_sublist key [] l).mem ((sortByKey_perm key _).mem_iff.mp h)

theorem range_map_cast (n : ℕ) :
    (List.range n).map (fun (i : ℕ) => (i : ℤ)) = intRange 0 ((n : ℤ) - 1) := by
  unfold intRange
  have hn : ((n : ℤ) - 1 + 1 - 0).toNat = n := by omega
  rw [hn]
  apply List.map_congr_left
  intro i _
  omega

theorem control_ids_perm (M : List (Tag × ℕ)) (tagsC : List Tag)
    (hsnd : M.map Prod.snd = List.range M.length)
    (hkeys : (M.map Prod.fst).Nodup)
    (hcount : ∀ p ∈ M, tagsC.count p.1 = 1) :
    (tagsC.filterMap (fun t =>
      if (M.find? (fun p => p.1 == t)).isSome then
        some (GenericProduct.idOf M t)
      else none)).Perm (List.range M.length) := by
  rw [List.perm_iff_count]
  intro j
  rw [count_filterMap_eq]
  by_cases hj : j < M.length
  · obtain ⟨p, hpM, hpj⟩ : ∃ p ∈ M, p.2 = j := by
      have h1 : j ∈ M.map Prod.snd := by
        rw [hsnd]
        exact List.mem_range.mpr hj
      rcases List.mem_map.mp h1 with ⟨p, hp, hpj⟩
      exact ⟨p, hp, hpj⟩
    have hinj := List.inj_on_of_nodup_map (hsnd ▸ List.nodup_range _)
    have hpred : ∀ t, ((if (M.find? (fun q => q.1 == t)).isSome then
        some (GenericProduct.idOf M t) else none) == some j) = (t == p.1) := by
      intro t
      by_cases hf : (M.find? (fun q => q.1 == t)).isSome
      · rw [if_pos hf]
        have hent := idOf_spec hf
        by_cases hid : GenericProduct.idOf M t = j
        · have hpt : (t, GenericProduct.idOf M t) = p :=
            hinj hent hpM (hid.trans hpj.symm)
          have ht : t = p.1 := by rw [← hpt]
          have hL : ((some (GenericProduct.idOf M t) == some j) : Bool) = true := by
            simp [hid]
          have hR : ((t == p.1) : Bool) = true := by simp [ht]
          rw [hL, hR]
        · have ht : ¬ t = p.1 := by
            intro hc
            have hfp : M.find? (fun q => q.1 == p.1) = some p :=
              find?_eq_of_keys_nodup hkeys hpM
            have hip : GenericProduct.idOf M t = p.2 := by
              unfold GenericProduct.idOf
              rw [hc, hfp]
            exact hid (by rw [hip, hpj])
          have hL : ((some (GenericProduct.idOf M t) == some j) : Bool) = false := by
            simpa using hid
          have hR : ((t == p.1) : Bool) = false := by simpa using ht
          rw [hL, hR]
      · rw [if_neg hf]
        have ht : ¬ t = p.1 := by
          intro hc
          rw [hc, find?_eq_of_keys_nodup hkeys hpM] at hf
          simp at hf
        have hR : ((t == p.1) : Bool) = false := by simpa using ht
        rw [hR]
        rfl
    have hfc : tagsC.filter (fun t =>
        (if (M.find? (fun q => q.1 == t)).isSome then
          some (GenericProduct.idOf M t) else none) == some j) =
        tagsC.filter (fun t => t == p.1) := by
      apply List.filter_congr
      intro t _
      exact hpred t
    rw [hfc]
    have hc1 : (tagsC.filter (fun t => t == p.1)).length = tagsC.count p.1 := by
      rw [List.count, List.countP_eq_length_filter]
    rw [hc1, hcount p hpM, List.count_eq_one_of_mem (List.nodup_range _)
      (List.mem_range.mpr hj)]
  · have hnone : ∀ t ∈ tagsC, ¬ ((if (M.find? (fun q => q.1 == t)).isSome then
        some (GenericProduct.idOf M t) else none) == some j) = true := by
      intro t _
      by_cases hf : (M.find? (fun q => q.1 == t)).isSome
      · rw [if_pos hf]
        have hent := idOf_spec hf
        have hlt := snd_lt_of_mem hsnd hent
        simp only [beq_iff_eq, Option.some.injEq]
        intro hc
        exact hj (hc ▸ hlt)
      · rw [if_neg hf]
        simp
    rw [List.filter_eq_nil_iff.mpr hnone]
    rw [List.count_eq_zero_of_not_mem (fun hc => hj (List.mem_range.mp hc))]
    rfl

theorem combineOk_data_eq (A B : Product) (s0 o0 : DataRow) :
    (GenericProduct.combineOk A B s0 o0).data =
      (GenericProduct.mergedData A B s0 o0).map (fun rt => { rt.1 with control_index := (GenericProduct.idOf (GenericProduct.buildNewIds ((GenericProduct.mergedData A B s0 o0).map Prod.snd) []) rt.2 : ℤ) }) :=
  (renumberData_spec (GenericProduct.mergedData A B s0 o0) []).2

theorem combineOk_control_eq (A B : Product) (s0 o0 : DataRow) :
    (GenericProduct.combineOk A B s0 o0).control =
      sortByKey (fun c => c.index) ((GenericProduct.taggedControl A B).filterMap (fun ct =>
        if ((GenericProduct.buildNewIds ((GenericProduct.mergedData A B s0 o0).map Prod.snd) []).find? (fun p => p.1 == ct.2)).isSome then
          some { ct.1 with index := (GenericProduct.idOf (GenericProduct.buildNewIds ((GenericProduct.mergedData A B s0 o0).map Prod.snd) []) ct.2 : ℤ) }
        else none)) := by
  have h0 : (GenericProduct.combineOk A B s0 o0).control =
      sortByKey (fun c => c.index) ((GenericProduct.taggedControl A B).filterMap (fun ct =>
        if ((GenericProduct.renumberData (GenericProduct.mergedData A B s0 o0) []).2.find? (fun p => p.1 == ct.2)).isSome then
          some { ct.1 with index := (GenericProduct.idOf (GenericProduct.renumberData (GenericProduct.mergedData A B s0 o0) []).2 ct.2 : ℤ) }
        else none)) := rfl
  rw [h0, (renumberData_spec (GenericProduct.mergedData A B s0 o0) []).1]

theorem mergedData_tags_subset (A B : Product) (s0 o0 : DataRow) :
    ∀ t ∈ (GenericProduct.mergedData A B s0 o0).map Prod.snd,
      (∃ r ∈ A.data, t = Tag.s r.control_index) ∨
      (∃ r ∈ B.data, t = Tag.o r.control_index) := by
  intro t ht
  rcases List.mem_map.mp ht with ⟨rt, hrt, htag⟩
  have hrt2 : rt ∈ GenericProduct.taggedData A B s0 o0 :=
    mem_sortDedup GenericProduct.timeKey _ rt hrt
  unfold GenericProduct.taggedData at hrt2
  have hcases : rt ∈ A.data.map (fun r => (r, Tag.s r.control_index)) ∨
      rt ∈ B.data.map (fun r => (r, Tag.o r.control_index)) := by
    by_cases hc : s0.time - s0.timedel / 2 ≤ o0.time - o0.timedel / 2
    · rw [if_pos hc] at hrt2
      rcases List.mem_append.mp hrt2 with h1 | h1
      · exact Or.inl h1
      · exact Or.inr h1
    · rw [if_neg hc] at hrt2
      rcases List.mem_append.mp hrt2 with h1 | h1
      · exact Or.inr h1
      · exact Or.inl h1
  rcases hcases with h1 | h1
  · rcases List.mem_map.mp h1 with ⟨r, hr, hre⟩
    refine Or.inl ⟨r, hr, ?_⟩
    rw [← htag, ← hre]
  · rcases List.mem_map.mp h1 with ⟨r, hr, hre⟩
    refine Or.inr ⟨r, hr, ?_⟩
    rw [← htag, ← hre]

theorem taggedControl_tags (A B : Product) :
    (GenericProduct.taggedControl A B).map Prod.snd =
      (A.control.map (fun c => c.index)).map Tag.s ++
        (B.control.map (fun c => c.index)).map Tag.o := by
  unfold GenericProduct.taggedControl
  rw [List.map_append, List.map_map, List.map_map, List.map_map, List.map_map]
  rfl

theorem count_tag_s_of_dense {A : Product}
    (hdenseA : A.control.map (fun c => c.index) =
      intRange 0 ((A.control.length : ℤ) - 1))
    {ci : ℤ} (hci : ci ∈ A.control.map (fun c => c.index)) :
    ((A.control.map (fun c => c.index)).map Tag.s).count (Tag.s ci) = 1 := by
  rw [List.count_map_of_injective _ Tag.s (fun a b h => by injection h) ci]
  rw [hdenseA] at hci ⊢
  rw [count_intRange]
  rw [if_pos (mem_intRange.mp hci)]

theorem count_tag_o_of_dense {B : Product}
    (hdenseB : B.control.map (fun c => c.index) =
      intRange 0 ((B.control.length : ℤ) - 1))
    {ci : ℤ} (hci : ci ∈ B.control.map (fun c => c.index)) :
    ((B.control.map (fun c => c.index)).map Tag.o).count (Tag.o ci) = 1 := by
  rw [List.count_map_of_injective _ Tag.o (fun a b h => by injection h) ci]
  rw [hdenseB] at hci ⊢
  rw [count_intRange]
  rw [if_pos (mem_intRange.mp hci)]

theorem count_tag_s_in_o (l : List ℤ) (ci : ℤ) :
    (l.map Tag.o).count (Tag.s ci) = 0 := by
  refine List.count_eq_zero_of_not_mem ?_
  intro hc
  rcases List.mem_map.mp hc with ⟨x, _, hx⟩
  exact absurd hx (by intro h; cases h)

theorem count_tag_o_in_s (l : List ℤ) (ci : ℤ) :
    (l.map Tag.s).count (Tag.o ci) = 0 := by
  refine List.count_eq_zero_of_not_mem ?_
  intro hc
  rcases List.mem_map.mp hc with ⟨x, _, hx⟩
  exact absurd hx (by intro h; cases h)

/-- C3: `combine` of two same-variant products with non-empty Data,
unique dense `control.index` and valid `control_index` references
yields a product whose `control.index` is exactly `0..K-1`, whose
`data.control_index` values all lie in that range, whose Data rows are
non-decreasing in time, and in which no two Data rows share the same
time key rounded to 2 decimal places. -/
theorem C3_combine_invariants (A B : Product)
    (hinst : isinstanceOf B.cls A.cls = true)
    (hA : A.data ≠ []) (hB : B.data ≠ [])
    (hdenseA : A.control.map (fun c => c.index) =
      intRange 0 ((A.control.length : ℤ) - 1))
    (hdenseB : B.control.map (fun c => c.index) =
      intRange 0 ((B.control.length : ℤ) - 1))
    (hrefA : ∀ r ∈ A.data, r.control_index ∈ A.control.map (fun c => c.index))
    (hrefB : ∀ r ∈ B.data, r.control_index ∈ B.control.map (fun c => c.index)) :
    ∃ res, GenericProduct.add A B = Except.ok res ∧
      res.control.map (fun c => c.index) =
        intRange 0 ((res.control.length : ℤ) - 1) ∧
      (∀ r ∈ res.data, 0 ≤ r.control_index ∧
        r.control_index < (res.control.length : ℤ)) ∧
      res.data.Pairwise (fun a b => a.time ≤ b.time) ∧
      (res.data.map (fun r => round2key r.time)).Nodup := by
  obtain ⟨s0, srest, hsd⟩ := List.exists_cons_of_ne_nil hA
  obtain ⟨o0, orest, hod⟩ := List.exists_cons_of_ne_nil hB
  set M := GenericProduct.buildNewIds
    ((GenericProduct.mergedData A B s0 o0).map Prod.snd) [] with hMdef
  set TC := GenericProduct.taggedControl A B with hTCdef
  have hMsnd : M.map Prod.snd = List.range M.length :=
    buildNewIds_snd _ [] (by simp)
  have hMkeys : (M.map Prod.fst).Nodup :=
    buildNewIds_keys_nodup _ [] (by simp)
  have hcount : ∀ p ∈ M, (TC.map Prod.snd).count p.1 = 1 := by
    intro p hp
    obtain ⟨e, he, hsub⟩ :=
      buildNewIds_append ((GenericProduct.mergedData A B s0 o0).map Prod.snd) []
    rw [hMdef, he] at hp
    have hkey : p.1 ∈ (GenericProduct.mergedData A B s0 o0).map Prod.snd :=
      hsub p (by simpa using hp)
    rw [hTCdef]
    rcases mergedData_tags_subset A B s0 o0 p.1 hkey with ⟨r, hr, ht⟩ | ⟨r, hr, ht⟩
    · rw [taggedControl_tags, List.count_append, ht]
      rw [count_tag_s_of_dense hdenseA (hrefA r hr), count_tag_s_in_o]
    · rw [taggedControl_tags, List.count_append, ht]
      rw [count_tag_o_in_s, count_tag_o_of_dense hdenseB (hrefB r hr)]
  have hctrlmap : (GenericProduct.combineOk A B s0 o0).control.map
      (fun c => c.index) = intRange 0 ((M.length : ℤ) - 1) := by
    rw [combineOk_control_eq A B s0 o0, ← hMdef, ← hTCdef]
    have hc1 : ((TC.filterMap (fun ct =>
        if (M.find? (fun p => p.1 == ct.2)).isSome then
          some { ct.1 with index := (GenericProduct.idOf M ct.2 : ℤ) }
        else none)).map (fun c => c.index)) =
        ((TC.map Prod.snd).filterMap (fun t =>
          if (M.find? (fun p => p.1 == t)).isSome then
            some (GenericProduct.idOf M t)
          else none)).map (fun (i : ℕ) => (i : ℤ)) := by
      rw [List.map_filterMap, List.map_filterMap, List.filterMap_map]
      apply List.filterMap_congr
      intro ct _
      by_cases hf : (M.find? (fun p => p.1 == ct.2)).isSome
      · simp [hf]
      · simp [hf]
    have hperm2 : ((sortByKey (fun c => c.index) (TC.filterMap (fun ct =>
        if (M.find? (fun p => p.1 == ct.2)).isSome then
          some { ct.1 with index := (GenericProduct.idOf M ct.2 : ℤ) }
        else none))).map (fun c => c.index)).Perm
        (intRange 0 ((M.length : ℤ) - 1)) := by
      rw [← range_map_cast]
      refine ((sortByKey_perm _ _).map _).trans ?_
      rw [hc1]
      exact (control_ids_perm M (TC.map Prod.snd) hMsnd hMkeys hcount).map _
    have hsort1 : ((sortByKey (fun c => c.index) (TC.filterMap (fun ct =>
        if (M.find? (fun p => p.1 == ct.2)).isSome then
          some { ct.1 with index := (GenericProduct.idOf M ct.2 : ℤ) }
        else none))).map (fun c => c.index)).Pairwise (· ≤ ·) := by
      rw [List.pairwise_map]
      exact sortByKey_pairwise _ _
    have hsort2 : (intRange 0 ((M.length : ℤ) - 1)).Pairwise (· ≤ ·) :=
      (intRange_sorted _ _).imp (fun h => le_of_lt h)
    exact List.eq_of_perm_of_sorted hperm2 hsort1 hsort2
  have hctrllen : (GenericProduct.combineOk A B s0 o0).control.length =
      M.length := by
    have h1 := congrArg List.length hctrlmap
    rw [List.length_map, intRange_length] at h1
    omega
  have hpwle := sortByKey_pairwise GenericProduct.timeKey
    (dedupKeys GenericProduct.timeKey (GenericProduct.taggedData A B s0 o0))
  have hnodupk : ((GenericProduct.mergedData A B s0 o0).map
      GenericProduct.timeKey).Nodup :=
    ((sortByKey_perm GenericProduct.timeKey _).map _).nodup_iff.mpr
      (dedupKeys_map_key_nodup GenericProduct.timeKey
        (GenericProduct.taggedData A B s0 o0))
  have hpwne : (GenericProduct.mergedData A B s0 o0).Pairwise
      (fun a b => GenericProduct.timeKey a ≠ GenericProduct.timeKey b) :=
    List.pairwise_map.mp hnodupk
  have hpwlt : (GenericProduct.mergedData A B s0 o0).Pairwise
      (fun a b => GenericProduct.timeKey a < GenericProduct.timeKey b) :=
    (hpwle.and hpwne).imp (fun h => lt_of_le_of_ne h.1 h.2)
  have ha : (GenericProduct.combineOk A B s0 o0).control.map (fun c => c.index) =
      intRange 0 (((GenericProduct.combineOk A B s0 o0).control.length : ℤ) - 1) := by
    rw [hctrlmap, hctrllen]
  have hb : ∀ r ∈ (GenericProduct.combineOk A B s0 o0).data,
      0 ≤ r.control_index ∧
        r.control_index < ((GenericProduct.combineOk A B s0 o0).control.length : ℤ) := by
    intro r hr
    rw [combineOk_data_eq, ← hMdef] at hr
    rcases List.mem_map.mp hr with ⟨rt, hrt, hre⟩
    have htag : rt.2 ∈ (GenericProduct.mergedData A B s0 o0).map Prod.snd :=
      List.mem_map_of_mem _ hrt
    have hcov := buildNewIds_covers
      ((GenericProduct.mergedData A B s0 o0).map Prod.snd) [] rt.2 htag
    rw [← hMdef] at hcov
    have hent := idOf_spec hcov
    have hlt := snd_lt_of_mem hMsnd hent
    constructor
    · rw [← hre]
      simp
    · rw [hctrllen, ← hre]
      simp only []
      exact_mod_cast hlt
  have hc : (GenericProduct.combineOk A B s0 o0).data.Pairwise
      (fun a b => a.time ≤ b.time) := by
    rw [combineOk_data_eq]
    rw [List.pairwise_map]
    refine hpwlt.imp ?_
    intro a b hab
    show a.1.time ≤ b.1.time
    by_contra hcon
    push_neg at hcon
    have h2 := round2key_mono (le_of_lt hcon)
    unfold GenericProduct.timeKey at hab
    omega
  have hd : ((GenericProduct.combineOk A B s0 o0).data.map
      (fun r => round2key r.time)).Nodup := by
    rw [combineOk_data_eq]
    rw [List.map_map]
    exact hnodupk
  refine ⟨GenericProduct.combineOk A B s0 o0, ?_, ha, hb, hc, hd⟩
  unfold GenericProduct.add
  rw [hinst, hsd, hod]
  rfl

/-- C3 witness: the combine invariants hold concretely for
`prodC3A + prodC3B`. -/
theorem C3_combine_invariants_witness :
    ∃ res, GenericProduct.add prodC3A prodC3B = Except.ok res ∧
      res.control.map (fun c => c.index) =
        intRange 0 ((res.control.length : ℤ) - 1) ∧
      (∀ r ∈ res.data, 0 ≤ r.control_index ∧
        r.control_index < (res.control.length : ℤ)) ∧
      res.data.Pairwise (fun a b => a.time ≤ b.time) ∧
      (res.data.map (fun r => round2key r.time)).Nodup :=
  C3_combine_invariants prodC3A prodC3B (by decide) (by decide) (by decide)
    (by decide) (by decide) (by decide) (by decide)

theorem isinstanceOf_refl (c : PClass) : isinstanceOf c c = true := by
  cases c <;> rfl

theorem perm_toFinset {α : Type} [DecidableEq α] {l1 l2 : List α}
    (h : l1.Perm l2) : l1.toFinset = l2.toFinset := by
  ext a
  simp [List.mem_toFinset, h.mem_iff]

theorem map_tag_s_timeKey (l : List DataRow) :
    ((l.map (fun r => (r, Tag.s r.control_index))).map GenericProduct.timeKey) =
      l.map (fun r => round2key r.time) := by
  rw [List.map_map]
  rfl

theorem map_tag_o_timeKey (l : List DataRow) :
    ((l.map (fun r => (r, Tag.o r.control_index))).map GenericProduct.timeKey) =
      l.map (fun r => round2key r.time) := by
  rw [List.map_map]
  rfl

theorem map_tag_s_content (l : List DataRow) :
    ((l.map (fun r => (r, Tag.s r.control_index))).map (fun rt => rowContent rt.1)) =
      l.map rowContent := by
  rw [List.map_map]
  rfl

theorem map_tag_o_content (l : List DataRow) :
    ((l.map (fun r => (r, Tag.o r.control_index))).map (fun rt => rowContent rt.1)) =
      l.map rowContent := by
  rw [List.map_map]
  rfl

/-- When the stacked time keys are pairwise distinct, `__add__` drops no
row: the result's Data contents (`(time, timedel, value)`, ignoring the
renumbered `control_index`) are a permutation of the stacked inputs'. -/
theorem add_content_perm (A B : Product)
    (hinst : isinstanceOf B.cls A.cls = true)
    (hA : A.data ≠ []) (hB : B.data ≠ [])
    (hkeys : ((A.data ++ B.data).map (fun r => round2key r.time)).Nodup) :
    ∃ res, GenericProduct.add A B = Except.ok res ∧ res.cls = A.cls ∧
      res.data ≠ [] ∧
      (res.data.map rowContent).Perm ((A.data ++ B.data).map rowContent) := by
  obtain ⟨s0, srest, hsd⟩ := List.exists_cons_of_ne_nil hA
  obtain ⟨o0, orest, hod⟩ := List.exists_cons_of_ne_nil hB
  have hkeysT : ((GenericProduct.taggedData A B s0 o0).map
      GenericProduct.timeKey).Nodup := by
    unfold GenericProduct.taggedData
    by_cases hc : s0.time - s0.timedel / 2 ≤ o0.time - o0.timedel / 2
    · rw [if_pos hc, List.map_append, map_tag_s_timeKey, map_tag_o_timeKey,
        ← List.map_append]
      exact hkeys
    · rw [if_neg hc, List.map_append, map_tag_o_timeKey, map_tag_s_timeKey,
        ← List.map_append]
      exact (List.perm_append_comm.map _).nodup_iff.mpr hkeys
  have hdd : dedupKeys GenericProduct.timeKey
      (GenericProduct.taggedData A B s0 o0) =
      GenericProduct.taggedData A B s0 o0 :=
    dedupKeys_eq_self _ hkeysT
  have hmp : (GenericProduct.mergedData A B s0 o0).Perm
      (GenericProduct.taggedData A B s0 o0) := by
    unfold GenericProduct.mergedData
    rw [hdd]
    exact sortByKey_perm _ _
  have htc : ((GenericProduct.taggedData A B s0 o0).map
      (fun rt => rowContent rt.1)).Perm ((A.data ++ B.data).map rowContent) := by
    unfold GenericProduct.taggedData
    by_cases hc : s0.time - s0.timedel / 2 ≤ o0.time - o0.timedel / 2
    · rw [if_pos hc, List.map_append, map_tag_s_content, map_tag_o_content,
        ← List.map_append]
    · rw [if_neg hc, List.map_append, map_tag_o_content, map_tag_s_content,
        ← List.map_append]
      exact List.perm_append_comm.map _
  have hres : (GenericProduct.combineOk A B s0 o0).data.map rowContent =
      (GenericProduct.mergedData A B s0 o0).map (fun rt => rowContent rt.1) := by
    rw [combineOk_data_eq, List.map_map]
    exact List.map_congr_left (fun rt _ => rfl)
  have hperm : ((GenericProduct.combineOk A B s0 o0).data.map rowContent).Perm
      ((A.data ++ B.data).map rowContent) := by
    rw [hres]
    exact (hmp.map _).trans htc
  refine ⟨GenericProduct.combineOk A B s0 o0, ?_, rfl, ?_, hperm⟩
  · unfold GenericProduct.add
    rw [hinst, hsd, hod]
    rfl
  · intro hnil
    have hlen := hperm.length_eq
    rw [hnil, List.length_map, List.length_map, hsd] at hlen
    simp at hlen

/-- C6: for same-variant products `A`, `B`, `C` with non-empty Data and
pairwise distinct 2-decimal time keys across the three inputs, both
association orders of `combine` succeed and
`combine(combine(A,B),C).data` and `combine(A,combine(B,C)).data` carry
the same set of `(time, value)` pairs. -/
theorem C6_merge_associative (A B C : Product)
    (h1 : A.cls = B.cls) (h2 : B.cls = C.cls)
    (hA : A.data ≠ []) (hB : B.data ≠ []) (hC : C.data ≠ [])
    (hkeys : (((A.data ++ B.data) ++ C.data).map
      (fun r => round2key r.time)).Nodup) :
    ∃ rAB rL rBC rR,
      GenericProduct.add A B = Except.ok rAB ∧
      GenericProduct.add rAB C = Except.ok rL ∧
      GenericProduct.add B C = Except.ok rBC ∧
      GenericProduct.add A rBC = Except.ok rR ∧
      (rL.data.map (fun r => (r.time, r.value))).toFinset =
        (rR.data.map (fun r => (r.time, r.value))).toFinset := by
  have hinstAB : isinstanceOf B.cls A.cls = true := by
    rw [h1]
    exact isinstanceOf_refl _
  have keysAB : ((A.data ++ B.data).map (fun r => round2key r.time)).Nodup := by
    have h := hkeys
    rw [List.map_append] at h
    exact h.of_append_left
  obtain ⟨rAB, hAB, hclsAB, hneAB, hpermAB⟩ :=
    add_content_perm A B hinstAB hA hB keysAB
  have hinstL : isinstanceOf C.cls rAB.cls = true := by
    rw [hclsAB, h1, h2]
    exact isinstanceOf_refl _
  have hkmapAB : (rAB.data.map (fun r => round2key r.time)).Perm
      ((A.data ++ B.data).map (fun r => round2key r.time)) := by
    have h := hpermAB.map (fun (c : ℚ × ℚ × ℤ) => round2key c.1)
    rw [List.map_map, List.map_map] at h
    exact h
  have keysL : ((rAB.data ++ C.data).map (fun r => round2key r.time)).Nodup := by
    rw [List.map_append]
    refine (hkmapAB.append_right _).nodup_iff.mpr ?_
    rw [← List.map_append]
    exact hkeys
  obtain ⟨rL, hL, hclsL, hneL, hpermL⟩ :=
    add_content_perm rAB C hinstL hneAB hC keysL
  have hcontL : (rL.data.map rowContent).Perm
      (((A.data ++ B.data) ++ C.data).map rowContent) := by
    refine hpermL.trans ?_
    rw [List.map_append]
    refine (hpermAB.append_right _).trans ?_
    rw [← List.map_append]
  have hinstBC : isinstanceOf C.cls B.cls = true := by
    rw [h2]
    exact isinstanceOf_refl _
  have keysBC : ((B.data ++ C.data).map (fun r => round2key r.time)).Nodup := by
    have h := hkeys
    rw [List.append_assoc, List.map_append] at h
    exact h.of_append_right
  obtain ⟨rBC, hBC, hclsBC, hneBC, hpermBC⟩ :=
    add_content_perm B C hinstBC hB hC keysBC
  have hinstR : isinstanceOf rBC.cls A.cls = true := by
    rw [hclsBC, h1]
    exact isinstanceOf_refl _
  have hkmapBC : (rBC.data.map (fun r => round2key r.time)).Perm
      ((B.data ++ C.data).map (fun r => round2key r.time)) := by
    have h := hpermBC.map (fun (c : ℚ × ℚ × ℤ) => round2key c.1)
    rw [List.map_map, List.map_map] at h
    exact h
  have keysR : ((A.data ++ rBC.data).map (fun r => round2key r.time)).Nodup := by
    rw [List.map_append]
    refine (hkmapBC.append_left _).nodup_iff.mpr ?_
    rw [← List.map_append, ← List.append_assoc]
    exact hkeys
  obtain ⟨rR, hR, hclsR, hneR, hpermR⟩ :=
    add_content_perm A rBC hinstR hA hneBC keysR
  have hcontR : (rR.data.map rowContent).Perm
      (((A.data ++ B.data) ++ C.data).map rowContent) := by
    refine hpermR.trans ?_
    rw [List.map_append]
    refine (hpermBC.append_left _).trans ?_
    rw [← List.map_append, ← List.append_assoc]
  have hfin : (rL.data.map rowContent).Perm (rR.data.map rowContent) :=
    hcontL.trans hcontR.symm
  have hpairs : (rL.data.map (fun r => (r.time, r.value))).Perm
      (rR.data.map (fun r => (r.time, r.value))) := by
    have h := hfin.map (fun (c : ℚ × ℚ × ℤ) => (c.1, c.2.2))
    rw [List.map_map, List.map_map] at h
    exact h
  exact ⟨rAB, rL, rBC, rR, hAB, hL, hBC, hR, perm_toFinset hpairs⟩

theorem roundHalfEven_intCast (n : ℤ) : roundHalfEven ((n : ℤ) : ℚ) = n := by
  unfold roundHalfEven
  norm_num

theorem round2key_intCast (n : ℤ) : round2key ((n : ℤ) : ℚ) = 100 * n := by
  unfold round2key
  have h : (100 : ℚ) * ((n : ℤ) : ℚ) = ((100 * n : ℤ) : ℚ) := by
    push_cast
    ring
  rw [h, roundHalfEven_intCast]

/-- C6 witness: both association orders agree on the `(time, value)`
pair set for `prodC6A`, `prodC6B`, `prodC6C`. -/
theorem C6_merge_associative_witness :
    ∃ rAB rL rBC rR,
      GenericProduct.add prodC6A prodC6B = Except.ok rAB ∧
      GenericProduct.add rAB prodC6C = Except.ok rL ∧
      GenericProduct.add prodC6B prodC6C = Except.ok rBC ∧
      GenericProduct.add prodC6A rBC = Except.ok rR ∧
      (rL.data.map (fun r => (r.time, r.value))).toFinset =
        (rR.data.map (fun r => (r.time, r.value))).toFinset :=
  C6_merge_associative prodC6A prodC6B prodC6C rfl rfl (by decide) (by decide)
    (by decide)
    (by
      simp only [prodC6A, prodC6B, prodC6C, List.cons_append, List.nil_append,
        List.map_cons, List.map_nil, round2key_intCast]
      decide)

end STIXCore
